import Mathlib

/-!
Verification of the log-to-dataset pipeline in `analysis.py`.

The Python code is shallowly embedded: Python strings become `List Char`,
`datetime` values become microsecond counts (`Int`), dictionaries become
structures, in-place mutation becomes explicit state passing, and functions
that cannot raise are total.  Floating-point arithmetic (only used for
timestamp deltas and confidence formatting) is modelled as exact arithmetic
on the underlying integer / decimal values.
-/

set_option maxHeartbeats 1000000

namespace ThesisAnalysis

/-- Python strings are modelled as lists of characters. -/
abbrev Str := List Char

/-- The ASCII whitespace characters recognised by Python's `str.strip`,
`str.split` and the regex class `\s` (inputs here are ASCII). -/
def pyWs (c : Char) : Bool :=
  c = ' ' || c = '\t' || c = '\n' || c = '\r' || c = '\x0b' || c = '\x0c'

/-- Python `str.lstrip()` with no argument (strip leading whitespace). -/
def lstrip (s : Str) : Str := s.dropWhile pyWs

/-- Python `str.rstrip()` with no argument (strip trailing whitespace). -/
def rstrip (s : Str) : Str := (s.reverse.dropWhile pyWs).reverse

/-- Python `str.strip()` with no argument. -/
def pyStrip (s : Str) : Str := rstrip (lstrip s)

/-- Python `str.lower()` (ASCII case folding). -/
def lowerStr (s : Str) : Str := s.map Char.toLower

/-- Python `needle in haystack` substring test. -/
def hasSub (pat : Str) : Str → Bool
  | [] => pat.isEmpty
  | c :: rest => pat.isPrefixOf (c :: rest) || hasSub pat rest

/-- Embedding of `LINE_RE.match` for
`^\[(?P<ts>[^\]]+)\]\s*(?P<component>[^:]+):\s*(?P<event>[^-]+?)(?:-\s*(?P<details>.*))?$`,
restricted to the part after the component's colon:
`\s*(?P<event>[^-]+?)(?:-\s*(?P<details>.*))?$`.
Following the backtracking semantics: the greedy `\s*` takes the maximal
whitespace run but gives one character back to the mandatory lazy
`[^-]+?` when the remainder starts with `-` or is empty; the lazy event
group then extends to the first `-` (where the optional dash group
matches) or to the end of the line (where it is skipped). -/
def eventTailNum (r : Str) : Option (Str × Option Str) :=
  let evt := r.takeWhile (fun x => x != '-')
  match r.dropWhile (fun x => x != '-') with
  | '-' :: rest2 => some (evt, some (rest2.dropWhile pyWs))
  | _ => some (evt, none)

def eventTailCore (w r : Str) : Option (Str × Option Str) :=
  match r with
  | [] => if w.isEmpty then none else some (w.drop (w.length - 1), none)
  | c :: rest =>
    if c = '-' then
      if w.isEmpty then none
      else some (w.drop (w.length - 1), some (rest.dropWhile pyWs))
    else eventTailNum (c :: rest)

def eventTailMatch (r2 : Str) : Option (Str × Option Str) :=
  eventTailCore (r2.takeWhile pyWs) (r2.dropWhile pyWs)

/-- Embedding of `LINE_RE.match` on a (stripped) line.  Returns the four
captured groups `(ts, component, event, details?)` on success.  The `ts`
group is the text between `[` and the first `]` (non-empty), the
`component` group is the text between `]` and the first `:` (non-empty; the
greedy `\s*` in front of it only moves whitespace that the caller strips
away again, so the segment itself is returned), and the event/details
groups follow `eventTailMatch`. -/
def lineReAfterComp (ts compSeg : Str) : Str → Option (Str × Str × Str × Option Str)
  | ':' :: r2 =>
    if compSeg.isEmpty then none
    else
      match eventTailMatch r2 with
      | some (evt, det) => some (ts, compSeg, evt, det)
      | none => none
  | _ => none

def lineReComp (ts r1 : Str) : Option (Str × Str × Str × Option Str) :=
  lineReAfterComp ts (r1.takeWhile (fun c => c != ':')) (r1.dropWhile (fun c => c != ':'))

def lineReAfterTs (ts : Str) : Str → Option (Str × Str × Str × Option Str)
  | ']' :: r1 => if ts.isEmpty then none else lineReComp ts r1
  | _ => none

def lineReMatch (s : Str) : Option (Str × Str × Str × Option Str) :=
  match s with
  | '[' :: r0 =>
    lineReAfterTs (r0.takeWhile (fun c => c != ']')) (r0.dropWhile (fun c => c != ']'))
  | _ => none

/-- Is a year a leap year (Gregorian calendar, as used by `datetime`). -/
def isLeap (y : Nat) : Bool := y % 4 = 0 && (y % 100 ≠ 0 || y % 400 = 0)

/-- Number of days in a month, as validated by `datetime`. -/
def daysInMonth (y m : Nat) : Nat :=
  if m = 2 then (if isLeap y then 29 else 28)
  else if m = 4 || m = 6 || m = 9 || m = 11 then 30
  else 31

/-- Days from 1970-01-01 to a civil date (proleptic Gregorian), the
standard days-from-civil computation used to linearise `datetime` values. -/
def daysFromCivil (y m d : Nat) : Int :=
  let yAdj : Int := (y : Int) - (if m ≤ 2 then 1 else 0)
  let era : Int := Int.fdiv yAdj 400
  let yoe : Int := yAdj - era * 400
  let mp : Int := Int.fmod ((m : Int) + 9) 12
  let doy : Int := Int.fdiv (153 * mp + 2) 5 + (d : Int) - 1
  let doe : Int := yoe * 365 + Int.fdiv yoe 4 - Int.fdiv yoe 100 + doy
  era * 146097 + doe - 719468

/-- Decimal value of a digit character. -/
def digitVal (c : Char) : Nat := c.toNat - 48

/-- Decode a string of decimal digits to a natural number. -/
def decodeDigits (s : Str) : Nat := s.foldl (fun acc c => acc * 10 + digitVal c) 0

/-- Parse exactly two digit characters. -/
def parse2 (a b : Char) : Option Nat :=
  if a.isDigit && b.isDigit then some (digitVal a * 10 + digitVal b) else none

/-- Parse exactly four digit characters. -/
def parse4 (a b c d : Char) : Option Nat :=
  if a.isDigit && b.isDigit && c.isDigit && d.isDigit then
    some (((digitVal a * 10 + digitVal b) * 10 + digitVal c) * 10 + digitVal d)
  else none

/-- A `datetime` instant, linearised to microseconds since 1970-01-01. -/
def epochMicros (y mo dy hh mi ss micro : Nat) : Int :=
  daysFromCivil y mo dy * 86400000000 +
    (((hh * 3600 + mi * 60 + ss) * 1000000 + micro : Nat) : Int)

/-- Embedding of `datetime.fromisoformat` on its canonical input language
`YYYY-MM-DD[<T or space>HH:MM:SS[.f{1..6}]]` (the format produced and
consumed by this program), with full range validation; every other string
is rejected (`none`), which in the source raises `ValueError` and is caught.
The resulting instant is the microsecond count since the epoch. -/
def pyFromIsoformat (s : Str) : Option Int :=
  match s with
  | y1 :: y2 :: y3 :: y4 :: '-' :: m1 :: m2 :: '-' :: d1 :: d2 :: rest =>
    match parse4 y1 y2 y3 y4, parse2 m1 m2, parse2 d1 d2 with
    | some y, some mo, some dy =>
      if 1 ≤ y && 1 ≤ mo && mo ≤ 12 && 1 ≤ dy && dy ≤ daysInMonth y mo then
        match rest with
        | [] => some (epochMicros y mo dy 0 0 0 0)
        | sep :: t =>
          if sep = 'T' || sep = ' ' then
            match t with
            | h1 :: h2 :: ':' :: mi1 :: mi2 :: ':' :: s1 :: s2 :: rest2 =>
              match parse2 h1 h2, parse2 mi1 mi2, parse2 s1 s2 with
              | some hh, some mi, some ss =>
                if hh ≤ 23 && mi ≤ 59 && ss ≤ 59 then
                  match rest2 with
                  | [] => some (epochMicros y mo dy hh mi ss 0)
                  | '.' :: fr =>
                    if !fr.isEmpty && fr.length ≤ 6 && fr.all Char.isDigit then
                      some (epochMicros y mo dy hh mi ss
                        (decodeDigits fr * 10 ^ (6 - fr.length)))
                    else none
                  | _ => none
                else none
              | _, _, _ => none
            | _ => none
          else none
      else none
    | _, _, _ => none
  | _ => none

/-- A parsed event record, as built by `parse_log_lines` and annotated in
place by `compute_inference_duration`.  The Python dictionary's optional
duration keys are modelled with `Option`; a key that is absent and a key
set to `None` are both `none` (the source only ever reads them through
`.get`, which cannot tell the two apart). -/
structure Event where
  ts : Option Int
  component : Option Str
  event : Option Str
  details : Str
  raw : Str
  duration_ms : Option Int := none
  duration_hms : Option Str := none
deriving DecidableEq

/-- Embedding of the per-line body of `parse_log_lines`: strip the line,
skip it if blank, otherwise build the structured event (the diagnostic
`print` is a side effect with no bearing on the result). -/
def parseLine (line : Str) : Option Event :=
  let ln := pyStrip line
  if ln.isEmpty then none
  else
    match lineReMatch ln with
    | none =>
      some { ts := none, component := none, event := none, details := ln, raw := ln }
    | some (tsS, compSeg, evtG, detG) =>
      some { ts := pyFromIsoformat tsS
             component := some (pyStrip compSeg)
             event := some (pyStrip evtG)
             details := pyStrip (match detG with | some d => d | none => [])
             raw := ln }

/-- Embedding of `parse_log_lines`. -/
def parse_log_lines (lines : List Str) : List Event :=
  lines.filterMap parseLine

/-- Decimal digit character for a value below 10. -/
def digitChar (n : Nat) : Char := Char.ofNat (48 + n)

/-- Decimal rendering of a natural number, fuel-guarded so that it
reduces by iota (the digits of Python's `str`/`format` for a non-negative
`int`; any fuel above the value itself is enough). -/
def natToDigitsCore : Nat → Nat → Str
  | 0, _ => []
  | fuel + 1, n =>
    if n < 10 then [digitChar n]
    else natToDigitsCore fuel (n / 10) ++ [digitChar (n % 10)]

/-- Decimal rendering of a natural number. -/
def natToDigits (n : Nat) : Str := natToDigitsCore (n + 1) n

/-- Left-pad a digit string with zeros to the given width (the padding of
Python's `{:0Nd}` format spec). -/
def zfill (w : Nat) (ds : Str) : Str := List.replicate (w - ds.length) '0' ++ ds

/-- Python's `f"{n:0Wd}"`: for a negative number the sign counts towards
the field width and the digits are padded one character less. -/
def pyFmtD (w : Nat) (n : Int) : Str :=
  if n < 0 then '-' :: zfill (w - 1) (natToDigits n.natAbs)
  else zfill w (natToDigits n.toNat)

/-- Embedding of `format_duration_ms`: repeated `divmod` (Python
floor-division and floor-modulus, hence `Int.fdiv`/`Int.fmod`) followed by
`f"{hours:02d}:{mins:02d}:{sec:02d}.{milli:03d}"`.  The `ms is None`
branch never fires (every caller passes an `int`), so the embedded
signature takes an `Int`. -/
def format_duration_ms (ms : Int) : Str :=
  let seconds := Int.fdiv ms 1000
  let milli := Int.fmod ms 1000
  let mins := Int.fdiv seconds 60
  let sec := Int.fmod seconds 60
  let hours := Int.fdiv mins 60
  let mins2 := Int.fmod mins 60
  pyFmtD 2 hours ++ ':' :: pyFmtD 2 mins2 ++ ':' :: pyFmtD 2 sec ++ '.' :: pyFmtD 3 milli

/-- Python `str.split()` with no argument: split on whitespace runs,
discarding empty fields. -/
def pySplit (s : Str) : List Str :=
  (s.splitOnP pyWs).filter (fun w => !w.isEmpty)

/-- Python `str.strip('"')`: strip leading and trailing quote characters. -/
def stripQuotes (s : Str) : Str :=
  ((s.dropWhile (fun c => c = '"')).reverse.dropWhile (fun c => c = '"')).reverse

/-- Embedding of `find_ground_truth`: the first line containing
`"ground truth"`, `"objeto verdad"` or `"objeto_verdad"` case-insensitively
yields its last whitespace-delimited token with surrounding quotes
stripped. -/
def find_ground_truth (lines : List Str) : Option Str :=
  lines.findSome? fun ln =>
    let low := lowerStr ln
    if hasSub "ground truth".toList low || hasSub "objeto verdad".toList low ||
        hasSub "objeto_verdad".toList low then
      match (pySplit ln).getLast? with
      | some w => some (stripQuotes w)
      | none => none
    else none

/-- Embedding of `int((ts_cur - ts_prev).total_seconds() * 1000)` with the two
`datetime`s modelled as microsecond counts: the mathematical value of the
product is the microsecond delta divided by 1000, and `int` truncates
toward zero (`Int.tdiv`).  The floating-point detour through
`total_seconds()` is modelled as exact. -/
def msBetween (tsPrev tsCur : Int) : Int := Int.tdiv (tsCur - tsPrev) 1000

/-- The two `ev.pop(...)` calls at the top of `compute_inference_duration`. -/
def clearedDur (ev : Event) : Event :=
  { ev with duration_ms := none, duration_hms := none }

/-- The `for i in range(1, len(events))` loop of
`compute_inference_duration`: each event's duration is the timestamp delta
to its predecessor in sequence order when both timestamps are present,
else `None` (a `datetime` is always truthy, so `if ts_prev and ts_cur`
tests presence).  In-place mutation is embedded by rebuilding the list;
the mutated predecessor record is threaded through, its `ts` being the
only field the next step reads. -/
def durStep (prev cur : Event) : Event :=
  match prev.ts, cur.ts with
  | some tp, some tc =>
    { cur with duration_ms := some (msBetween tp tc)
               duration_hms := some (format_duration_ms (msBetween tp tc)) }
  | _, _ => { cur with duration_ms := none, duration_hms := none }

def durLoop (prev : Event) : List Event → List Event
  | [] => []
  | cur :: rest => durStep prev cur :: durLoop (durStep prev cur) rest

/-- The special-cased first event of `compute_inference_duration`: duration
`0` if it has a timestamp, else `None`. -/
def firstStep (e0 : Event) : Event :=
  match e0.ts with
  | some _ =>
    { e0 with duration_ms := some 0, duration_hms := some (format_duration_ms 0) }
  | none => { e0 with duration_ms := none, duration_hms := none }

/-- Body of `compute_inference_duration` after the clearing pass. -/
def computeCore : List Event → List Event
  | [] => []
  | e0 :: rest => firstStep e0 :: durLoop (firstStep e0) rest

/-- Embedding of `compute_inference_duration`: clear the duration keys of
every event, then annotate in sequence order.  The Python function mutates
`events` in place and returns `None`; the embedding returns the mutated
list. -/
def compute_inference_duration (events : List Event) : List Event :=
  computeCore (events.map clearedDur)

/-- Greedy match of `[0-9]*\.?[0-9]+` at the start of `s`, returning the
captured text: the maximal digit run, then an optional dot followed by a
further digit run; if nothing can follow the dot the engine backtracks and
the capture ends at the last digit before it. -/
def numCapture (s : Str) : Option Str :=
  let d1 := s.takeWhile Char.isDigit
  match s.dropWhile Char.isDigit with
  | '.' :: r2 =>
    let d2 := r2.takeWhile Char.isDigit
    if !d2.isEmpty then some (d1 ++ '.' :: d2)
    else if !d1.isEmpty then some d1
    else none
  | _ => if !d1.isEmpty then some d1 else none

/-- Embedding of `CONF_RE.search` for
`with confidence\s+(?P<conf>[0-9]*\.?[0-9]+)` with `re.IGNORECASE`:
try every start position from the left; at a position the lowered text
must start with the literal, then at least one whitespace character, then
a number; on any failure the search resumes one character further right. -/
def confSearch : Str → Option Str
  | [] => none
  | c :: rest =>
    if ("with confidence".toList).isPrefixOf (lowerStr (c :: rest)) then
      let after := (c :: rest).drop ("with confidence".toList).length
      if (after.takeWhile pyWs).isEmpty then confSearch rest
      else
        match numCapture (after.dropWhile pyWs) with
        | some cap => some cap
        | none => confSearch rest
    else confSearch rest

/-- The text before the first case-insensitive occurrence of `lowPat`
(given pre-lowered): `re.split(pat, s, flags=re.IGNORECASE)[0]`. -/
def beforeMatchCI (lowPat : Str) : Str → Str
  | [] => []
  | c :: rest =>
    if lowPat.isPrefixOf (lowerStr (c :: rest)) then []
    else c :: beforeMatchCI lowPat rest

/-- The exact decimal value of a captured `[0-9]*\.?[0-9]+` literal as a
numerator/denominator pair. -/
def capVal (cap : Str) : Nat × Nat :=
  let intPart := cap.takeWhile Char.isDigit
  match cap.dropWhile Char.isDigit with
  | '.' :: frac => (decodeDigits (intPart ++ frac), 10 ^ frac.length)
  | _ => (decodeDigits intPart, 1)

/-- Round `p / q` to the nearest integer, ties to even (the rounding of
`%.3f` formatting). -/
def roundHalfEvenDiv (p q : Nat) : Nat :=
  let d := p / q
  let r := p % q
  if 2 * r < q then d
  else if q < 2 * r then d + 1
  else if d % 2 = 0 then d else d + 1

/-- Embedding of `f"{float(cap):.3f}"` for a captured confidence literal:
the float is modelled as the exact decimal value of the capture (the
binary representation error of IEEE doubles is below the scale any claim
here depends on), rounded to thousandths and rendered with three forced
decimals.  `float(cap)` cannot raise on a `[0-9]*\.?[0-9]+` capture, so
the `except` branch setting `conf = None` is dead. -/
def pyFmt3f (cap : Str) : Str :=
  let pq := capVal cap
  let n := roundHalfEvenDiv (pq.1 * 1000) pq.2
  natToDigits (n / 1000) ++
    '.' :: [digitChar (n / 100 % 10), digitChar (n / 10 % 10), digitChar (n % 10)]

/-- One output row of the dataset (one CSV record of `process_file` /
`main`).  The `timestamp` field holds the instant rather than its
rendering: the source stores `ts.isoformat()` (or `""` when absent) and
later re-parses it with `pd.to_datetime(..., errors="coerce")`, a
round-trip that is the identity on instants and sends `""` to `NaT`
(here `none`).  `acierto` is `1`/`0`/`""` in the source; the empty string
is `none`. -/
structure Row where
  timestamp : Option Int
  modo : Str
  tipo_evento : Str
  escenario : Nat
  distancia_m : Str
  iluminacion : Str
  objeto_verdad : Str
  objeto_predicho : Str
  confianza : Str
  t_total_ms : Str
  acierto : Option Nat
  notas : Str
deriving DecidableEq

/-- The `label` extraction in `process_file`: the text before a
case-insensitive `with confidence`, stripped (twice, as the source does);
otherwise the whole details, stripped. -/
def labelOf (details : Str) : Str :=
  pyStrip (if hasSub "with confidence".toList (lowerStr details) then
    pyStrip (beforeMatchCI "with confidence".toList details) else details)

/-- The `confianza` field: `f"{conf:.3f}"` for a successful `CONF_RE` search,
else the empty string. -/
def confStr (details : Str) : Str :=
  match confSearch details with
  | some cap => pyFmt3f cap
  | none => []

/-- The expression `truth or ""`. -/
def truthStr (truth : Option Str) : Str :=
  match truth with
  | some t => t
  | none => []

/-- The `acierto` expression
`(1 if truth and label and truth.lower() == label.lower() else 0) if truth else ""`;
the empty string is `none`. -/
def aciertoOf (truth : Option Str) (label : Str) : Option Nat :=
  match truth with
  | some t =>
    if t.isEmpty then none
    else some (if !t.isEmpty && !label.isEmpty && lowerStr t = lowerStr label then 1
      else 0)
  | none => none

/-- The expression `ev.get("duration_hms") if ev.get("duration_hms") is not None else ""`. -/
def durStr (d : Option Str) : Str :=
  match d with
  | some s => s
  | none => []

/-- The `notas` field: the full details when they contain `error` case-insensitively. -/
def notasOf (details : Str) : Str :=
  if hasSub "error".toList (lowerStr details) then details else []

/-- The per-event body of the row loop in `process_file`: events with a
falsy `event` field (`None` or empty) are skipped; otherwise one row is
synthesized (the commented-out `== "result"` filter is replaced by
`if True` in the source, so every named event yields a row). -/
def rowOfEvent (truth : Option Str) (ilum : Str) (escenario : Nat) (modo : Str)
    (ev : Event) : Option Row :=
  match ev.event with
  | none => none
  | some evName =>
    if evName.isEmpty then none
    else
      some { timestamp := ev.ts
             modo := modo
             tipo_evento := pyStrip evName
             escenario := escenario
             distancia_m := []
             iluminacion := ilum
             objeto_verdad := truthStr truth
             objeto_predicho := labelOf ev.details
             confianza := confStr ev.details
             t_total_ms := durStr ev.duration_hms
             acierto := aciertoOf truth (labelOf ev.details)
             notas := notasOf ev.details }

/-- The fallback summary row of `process_file` when the per-event loop
yields no rows: the last available timestamp and the last truthy duration
string are found by scanning the event sequence backward. -/
def fallbackRow (events : List Event) (truth : Option Str) (ilum : Str)
    (escenario : Nat) (modo : Str) : Row :=
  { timestamp := events.reverse.findSome? (fun ev => ev.ts)
    modo := modo
    tipo_evento := "no_result".toList
    escenario := escenario
    distancia_m := []
    iluminacion := ilum
    objeto_verdad := truthStr truth
    objeto_predicho := []
    confianza := []
    t_total_ms :=
      match events.reverse.findSome?
          (fun ev => match ev.duration_hms with
                     | some s => if s.isEmpty then none else some s
                     | none => none) with
      | some s => s
      | none => []
    acierto := none
    notas := "no result lines found".toList }

/-- Embedding of `process_file`, taking the file's text as its list of
lines (`path.read_text(...).splitlines()`). -/
def process_file (lines : List Str) (escenario : Nat) (modo : Str) : List Row :=
  let events := parse_log_lines lines
  let ilum := "LED".toList
  let truth := find_ground_truth lines
  let events2 := compute_inference_duration events
  let rows := events2.filterMap (rowOfEvent truth ilum escenario modo)
  if rows.isEmpty then [fallbackRow events2 truth ilum escenario modo] else rows

/-- A directory entry as seen by `main`: its file name, whether it is a
regular file, and (for files) its text content as lines.  Entries of a
directory are listed in `sorted(dirp.iterdir())` order. -/
structure FsEntry where
  name : Str
  isFile : Bool
  lines : List Str
deriving DecidableEq

/-- The directory tree `main` walks: for each scenario number the two
candidate directories `<root>/escenario i` and `<root>/logs/escenario i`,
each `none` when missing or not a directory. -/
structure Root where
  esc : Nat → Option (List FsEntry)
  logsEsc : Nat → Option (List FsEntry)

/-- The substitute row built in `main`'s `except` branch when processing a
file raises, with the exception message in `notas`. -/
def parseErrorRow (escenario : Nat) (msg : Str) : Row :=
  { timestamp := none
    modo := "MOBILE".toList
    tipo_evento := "parse_error".toList
    escenario := escenario
    distancia_m := []
    iluminacion := []
    objeto_verdad := []
    objeto_predicho := []
    confianza := []
    t_total_ms := []
    acierto := none
    notas := "parse error: ".toList ++ msg }

/-- Modelled exception message: referencing the loop variable `f` before
any directory entry ever assigned it raises `NameError` (message text
abbreviated; no claim depends on it). -/
def nameErrorMsg : Str := "NameError".toList

/-- Modelled exception message: `path.read_text` on a non-regular file
(message text abbreviated; no claim depends on it). -/
def readErrorMsg : Str := "IsADirectoryError".toList

/-- The `try`/`except` block of `main`, which sits at the level of the
`for f in sorted(dirp.iterdir())` loop, not inside it: it runs once per
existing candidate directory on whatever `f` holds after that loop.  When
`f` is unbound (`none`) the reference raises `NameError`; when it names a
non-regular file `read_text` raises; either exception is caught and
replaced by one `parse_error` row. -/
def processEntry (fOpt : Option FsEntry) (escenario : Nat) : List Row :=
  match fOpt with
  | none => [parseErrorRow escenario nameErrorMsg]
  | some f =>
    if f.isFile then process_file f.lines escenario ("MOBILE".toList)
    else [parseErrorRow escenario readErrorMsg]

/-- A dataset row together with its `id_prueba` column. -/
structure IdRow where
  id_prueba : Nat
  row : Row
deriving DecidableEq

/-- The `for r in file_rows` loop of `main`: append each row with the
incrementing `id_counter`. -/
def appendRows (idc : Nat) (acc : List IdRow) : List Row → Nat × List IdRow
  | [] => (idc, acc)
  | r :: rs => appendRows (idc + 1) (acc ++ [⟨idc, r⟩]) rs

/-- The accumulation phase of `main` (scenario and directory loops), with
the Python function-scoped loop variable `f` threaded explicitly: the
inner `for f in sorted(dirp.iterdir())` loop only rebinds `f` (its filter
`continue`s guard no processing), so after it `f` is the directory's last
entry, or keeps its previous value if the directory is empty. -/
def mainAccum (root : Root) : List IdRow :=
  let dirs :=
    ([1, 2, 3, 4].map (fun i => [(i, root.esc i), (i, root.logsEsc i)])).flatten
  let final := dirs.foldl
    (fun (st : Option FsEntry × Nat × List IdRow) (dir : Nat × Option (List FsEntry)) =>
      match dir.2 with
      | none => st
      | some entries =>
        let fNew := match entries.getLast? with
                    | some e => some e
                    | none => st.1
        let fileRows := processEntry fNew dir.1
        let acc2 := appendRows st.2.1 st.2.2 fileRows
        (fNew, acc2.1, acc2.2))
    (none, 1, [])
  final.2.2

/-- The comparison `pd.sort_values(by=["timestamp_parsed"], na_position=
"last")` sorts by: instants ascending, missing timestamps (`NaT`) last. -/
def tsKeyLe (a b : Option Int) : Bool :=
  match a, b with
  | some x, some y => x ≤ y
  | some _, none => true
  | none, some _ => false
  | none, none => true

/-- Embedding of the `df.sort_values(..., kind="mergesort")` call: a
stable merge sort of the accumulated rows by parsed timestamp. -/
def pdSortRows (rows : List IdRow) : List IdRow :=
  rows.mergeSort (fun a b => tsKeyLe a.row.timestamp b.row.timestamp)

/-- Embedding of `df["id_prueba"] = df.index + 1` after the sort:
sequential ids from `n` in list order. -/
def reassignIds : Nat → List IdRow → List IdRow
  | _, [] => []
  | n, r :: rs => { r with id_prueba := n } :: reassignIds (n + 1) rs

/-- The full dataset `main` writes (id assignment, global stable sort by
timestamp, id reassignment); file output is plumbing outside the model. -/
def mainRows (root : Root) : List IdRow :=
  reassignIds 1 (pdSortRows (mainAccum root))

/-- A log line of the documented shape `[<ts>] <comp>: <evt> - <details>`. -/
def mkLine (ts comp evt det : Str) : Str :=
  '[' :: (ts ++ ']' :: ' ' :: (comp ++ ':' :: ' ' :: (evt ++ ' ' :: '-' :: ' ' :: det)))

/-- The timestamp of the event at index `i`. -/
def tsAt (l : List Event) (i : Nat) : Option Int := (l[i]?).bind (fun e => e.ts)

/-- The duration rule as the specification words it: the first event's
duration is `0` when its timestamp is present, else null; event `i > 0`
gets `timestamp[i] - timestamp[i-1]` in whole milliseconds (truncated
toward zero, as `int()` does) when both timestamps are present, else
null.  Stated over the bare list of (optional) timestamps. -/
def specDurationAt (tss : List (Option Int)) (i : Nat) : Option Int :=
  if i = 0 then
    match tss[0]? with
    | some (some _) => some 0
    | _ => none
  else
    match tss[i - 1]?, tss[i]? with
    | some (some tp), some (some tc) => some (msBetween tp tc)
    | _, _ => none

/-- Concrete input for exercising the directory loop: first file of the
`escenario 1` directory. -/
def c1fileA : FsEntry :=
  ⟨"MOBILE_a.log".toList, true,
   ["[2025-01-01T10:00:00] SCENE: result - cat with confidence 0.900".toList]⟩

/-- Concrete input: second (and alphabetically last) file of the
`escenario 1` directory. -/
def c1fileB : FsEntry :=
  ⟨"MOBILE_b.log".toList, true,
   ["[2025-01-01T11:00:00] SCENE: result - dog with confidence 0.800".toList]⟩

/-- Concrete directory tree: `<root>/escenario 1` exists and holds the two
`MOBILE`-prefixed regular files above; no other candidate directory
exists. -/
def c1root : Root :=
  ⟨fun i => if i = 1 then some [c1fileA, c1fileB] else none, fun _ => none⟩

/-- Concrete demo input: a ground-truth line and one result event whose
prediction matches the truth case-insensitively. -/
def c4lines : List Str :=
  ["objeto_verdad: cup".toList,
   "[2025-12-29T18:29:32.765650] SCENE: result - Cup with confidence 0.870".toList]

/-- The single row `process_file` synthesizes from `c4lines`. -/
def c4row : Row :=
  ⟨some 1767032972765650, "MOBILE".toList, "result".toList, 1, [], "LED".toList,
   "cup".toList, "Cup".toList, "0.870".toList, [], some 1, []⟩

/-- Concrete demo input with no named event at all: a degraded line and a
grammar line whose event name is empty. -/
def c5lines : List Str :=
  ["hello".toList, "[2025-01-01T00:00:00] X:  - d".toList]

/-- Concrete demo input whose confidence capture is outside `0..1`. -/
def c8lines : List Str :=
  ["[2025-01-01T00:00:00] SCENE: result - cat with confidence 2.5".toList]

/-- The single row `process_file` synthesizes from `c8lines`. -/
def c8row : Row :=
  ⟨some 1735689600000000, "MOBILE".toList, "result".toList, 1, [], "LED".toList,
   [], "cat".toList, "2.500".toList, "00:00:00.000".toList, none, []⟩

/-- The single row the accumulation loop of `main` actually yields from
`c1root`: the one synthesized from the last directory entry `c1fileB`. -/
def c1rowB : Row :=
  ⟨some 1735729200000000, "MOBILE".toList, "result".toList, 1, [], "LED".toList,
   [], "dog".toList, "0.800".toList, "00:00:00.000".toList, none, []⟩

/-! ### Helper lemmas about the string primitives -/

theorem takeWhile_append_all {p : Char → Bool} {a : Str} (b : Str)
    (h : ∀ c ∈ a, p c = true) : (a ++ b).takeWhile p = a ++ b.takeWhile p := by
  induction a with
  | nil => simp
  | cons x xs ih =>
    simp only [List.cons_append, List.takeWhile_cons, h x (by simp)]
    simp [ih (fun c hc => h c (by simp [hc]))]

theorem dropWhile_append_all {p : Char → Bool} {a : Str} (b : Str)
    (h : ∀ c ∈ a, p c = true) : (a ++ b).dropWhile p = b.dropWhile p := by
  induction a with
  | nil => simp
  | cons x xs ih =>
    simp only [List.cons_append, List.dropWhile_cons, h x (by simp)]
    simp [ih (fun c hc => h c (by simp [hc]))]

theorem takeWhile_cons_neg {p : Char → Bool} {c : Char} (s : Str)
    (h : p c = false) : (c :: s).takeWhile p = [] := by
  simp [List.takeWhile_cons, h]

theorem dropWhile_cons_neg {p : Char → Bool} {c : Char} (s : Str)
    (h : p c = false) : (c :: s).dropWhile p = c :: s := by
  simp [List.dropWhile_cons, h]

theorem lstrip_cons_neg {c : Char} (s : Str) (h : pyWs c = false) :
    lstrip (c :: s) = c :: s := dropWhile_cons_neg s h

theorem rstrip_snoc_ws {c : Char} (a : Str) (h : pyWs c = true) :
    rstrip (a ++ [c]) = rstrip a := by
  simp [rstrip, List.dropWhile_cons, h]

theorem rstrip_snoc_neg {c : Char} (a : Str) (h : pyWs c = false) :
    rstrip (a ++ [c]) = a ++ [c] := by
  simp [rstrip, List.dropWhile_cons, h]

theorem rstrip_append_ne (a : Str) {b : Str} (h : rstrip b ≠ []) :
    rstrip (a ++ b) = a ++ rstrip b := by
  have hne : (b.reverse.dropWhile pyWs).isEmpty = false := by
    rcases hb : b.reverse.dropWhile pyWs with _ | ⟨x, xs⟩
    · exact absurd (by simp [rstrip, hb]) h
    · simp
  simp [rstrip, List.dropWhile_append, hne]

theorem rstrip_append_nil (a : Str) {b : Str} (h : rstrip b = []) :
    rstrip (a ++ b) = rstrip a := by
  have he : (b.reverse.dropWhile pyWs).isEmpty = true := by
    have : b.reverse.dropWhile pyWs = [] := by
      have := congrArg List.reverse h
      simpa [rstrip] using this
    simp [this]
  simp [rstrip, List.dropWhile_append, he]

theorem lstrip_idem (s : Str) : lstrip (lstrip s) = lstrip s := by
  induction s with
  | nil => rfl
  | cons c cs ih =>
    by_cases h : pyWs c = true
    · simpa [lstrip, List.dropWhile_cons, h] using ih
    · simp only [Bool.not_eq_true] at h
      simp [lstrip, List.dropWhile_cons, h]

theorem pyStrip_lstrip (s : Str) : pyStrip (lstrip s) = pyStrip s := by
  simp [pyStrip, lstrip_idem]

theorem head_lstrip_neg {s : Str} {c : Char} {cs : Str} (h : lstrip s = c :: cs) :
    pyWs c = false := by
  induction s with
  | nil => simp [lstrip] at h
  | cons x xs ih =>
    by_cases hx : pyWs x = true
    · exact ih (by simpa [lstrip, List.dropWhile_cons, hx] using h)
    · simp only [Bool.not_eq_true] at hx
      rw [lstrip, List.dropWhile_cons, hx] at h
      cases h
      exact hx

theorem lstrip_eq_nil_all_ws {s : Str} : lstrip s = [] → ∀ c ∈ s, pyWs c = true := by
  induction s with
  | nil => simp
  | cons x xs ih =>
    intro h
    by_cases hx : pyWs x = true
    · rw [lstrip, List.dropWhile_cons, hx] at h
      intro c hc
      rcases List.mem_cons.1 hc with hc | hc
      · simpa [hc] using hx
      · exact ih h c hc
    · simp only [Bool.not_eq_true] at hx
      rw [lstrip, List.dropWhile_cons, hx] at h
      cases h

theorem rstrip_all_ws {s : Str} (h : ∀ c ∈ s, pyWs c = true) : rstrip s = [] := by
  have : s.reverse.dropWhile pyWs = [] := by
    rw [List.dropWhile_eq_nil_iff]
    intro c hc
    exact h c (List.mem_reverse.1 hc)
  simp [rstrip, this]

theorem pyStrip_all_ws {s : Str} (h : ∀ c ∈ s, pyWs c = true) : pyStrip s = [] := by
  have hl : ∀ c ∈ lstrip s, pyWs c = true := fun c hc =>
    h c (List.Sublist.mem hc (List.dropWhile_sublist _))
  exact rstrip_all_ws hl

theorem pyStrip_snoc_ws {c : Char} (a : Str) (h : pyWs c = true) :
    pyStrip (a ++ [c]) = pyStrip a := by
  rcases ha : lstrip a with _ | ⟨x, xs⟩
  · have h1 : lstrip (a ++ [c]) = [] := by
      have := dropWhile_append_all (p := pyWs) [c] (lstrip_eq_nil_all_ws ha)
      simp only [lstrip] at ha ⊢
      rw [this]
      simp [List.dropWhile_cons, h]
    simp [pyStrip, h1, ha, rstrip]
  · have hne : (a.dropWhile pyWs).isEmpty = false := by
      simp only [lstrip] at ha
      simp [ha]
    have h1 : lstrip (a ++ [c]) = lstrip a ++ [c] := by
      simp [lstrip, List.dropWhile_append, hne]
    rw [pyStrip, h1, rstrip_snoc_ws _ h]
    rfl

theorem pyStrip_lstrip_outer (s : Str) : pyStrip (s.dropWhile pyWs) = pyStrip s :=
  pyStrip_lstrip s

theorem dropWhile_idem (p : Char → Bool) (l : Str) :
    (l.dropWhile p).dropWhile p = l.dropWhile p := by
  induction l with
  | nil => rfl
  | cons c cs ih =>
    by_cases h : p c = true
    · simpa [List.dropWhile_cons, h] using ih
    · simp only [Bool.not_eq_true] at h
      simp [List.dropWhile_cons, h]

theorem rstrip_idem (s : Str) : rstrip (rstrip s) = rstrip s := by
  simp [rstrip, dropWhile_idem]

theorem rstrip_nil_all_ws {s : Str} (h : rstrip s = []) : ∀ c ∈ s, pyWs c = true := by
  have h1 : s.reverse.dropWhile pyWs = [] := by
    have := congrArg List.reverse h
    simpa [rstrip] using this
  intro c hc
  exact List.dropWhile_eq_nil_iff.1 h1 c (List.mem_reverse.2 hc)

theorem rstrip_cons_ne_nil {c : Char} (cs : Str) (h : pyWs c = false) :
    rstrip (c :: cs) ≠ [] := by
  intro hnil
  have := rstrip_nil_all_ws hnil c (by simp)
  rw [this] at h
  cases h

theorem rstrip_cons_of_rstrip_nil {c : Char} {cs : Str} (h : rstrip cs = []) :
    rstrip (c :: cs) = rstrip [c] := by
  rw [show (c :: cs) = [c] ++ cs from rfl, rstrip_append_nil [c] h]

theorem rstrip_cons_of_rstrip_ne {c : Char} {cs : Str} (h : rstrip cs ≠ []) :
    rstrip (c :: cs) = c :: rstrip cs := by
  rw [show (c :: cs) = [c] ++ cs from rfl, rstrip_append_ne [c] h]
  rfl

theorem lstrip_rstrip_comm (s : Str) : lstrip (rstrip s) = rstrip (lstrip s) := by
  induction s with
  | nil => rfl
  | cons c cs ih =>
    have hsing_ws : pyWs c = true → rstrip [c] = [] := fun hw =>
      rstrip_all_ws (by intro x hx; rw [List.mem_singleton.1 hx]; exact hw)
    have hsing_ne : pyWs c = false → rstrip [c] = [c] := fun hw => by
      simpa using rstrip_snoc_neg ([] : Str) hw
    by_cases hc : pyWs c = true
    · have h2 : lstrip (c :: cs) = lstrip cs := by
        simp [lstrip, List.dropWhile_cons, hc]
      rcases hrc : rstrip cs with _ | ⟨d, ds⟩
      · have h1 : rstrip (c :: cs) = [] := by
          rw [rstrip_cons_of_rstrip_nil hrc, hsing_ws hc]
        rw [h1, h2, ← ih, hrc]
      · have h1 : rstrip (c :: cs) = c :: rstrip cs :=
          rstrip_cons_of_rstrip_ne (by rw [hrc]; simp)
        have h3 : lstrip (c :: rstrip cs) = lstrip (rstrip cs) := by
          simp [lstrip, List.dropWhile_cons, hc]
        rw [h1, h3, h2, ih]
    · simp only [Bool.not_eq_true] at hc
      have h2 : lstrip (c :: cs) = c :: cs := lstrip_cons_neg cs hc
      rcases hrc : rstrip cs with _ | ⟨d, ds⟩
      · have h1 : rstrip (c :: cs) = [c] := by
          rw [rstrip_cons_of_rstrip_nil hrc, hsing_ne hc]
        rw [h1, h2, h1]
        exact lstrip_cons_neg [] hc
      · have h1 : rstrip (c :: cs) = c :: rstrip cs :=
          rstrip_cons_of_rstrip_ne (by rw [hrc]; simp)
        rw [h1, h2, h1]
        exact lstrip_cons_neg _ hc

theorem pyStrip_rstrip (s : Str) : pyStrip (rstrip s) = pyStrip s := by
  rw [pyStrip, lstrip_rstrip_comm, rstrip_idem]
  rfl

/-! ### Helper lemmas about decimal digit rendering -/

theorem digitChar_isDigit {n : Nat} (h : n < 10) : (digitChar n).isDigit = true := by
  interval_cases n <;> decide

theorem natToDigitsCore_fuel_irrel :
    ∀ (f1 f2 n : Nat), n < f1 → n < f2 →
      natToDigitsCore f1 n = natToDigitsCore f2 n := by
  intro f1
  induction f1 with
  | zero => intro f2 n h1 _; omega
  | succ f ih =>
    intro f2 n h1 h2
    cases f2 with
    | zero => omega
    | succ g =>
      by_cases hn : n < 10
      · simp [natToDigitsCore, hn]
      · have hd : n / 10 < n := Nat.div_lt_self (by omega) (by omega)
        simp only [natToDigitsCore, hn, if_false]
        rw [ih g (n / 10) (by omega) (by omega)]

theorem natToDigits_eq (n : Nat) :
    natToDigits n =
      if n < 10 then [digitChar n]
      else natToDigits (n / 10) ++ [digitChar (n % 10)] := by
  show natToDigitsCore (n + 1) n = _
  by_cases hn : n < 10
  · simp [natToDigitsCore, hn]
  · have hd : n / 10 < n := Nat.div_lt_self (by omega) (by omega)
    simp only [natToDigitsCore, hn, if_false]
    rw [natToDigitsCore_fuel_irrel n (n / 10 + 1) (n / 10) (by omega) (by omega)]
    rfl

theorem natToDigits_lt10 {n : Nat} (h : n < 10) : natToDigits n = [digitChar n] := by
  rw [natToDigits_eq]
  simp [h]

theorem natToDigits_two {n : Nat} (h1 : 10 ≤ n) (h2 : n < 100) :
    natToDigits n = [digitChar (n / 10), digitChar (n % 10)] := by
  rw [natToDigits_eq]
  have hn : ¬ n < 10 := by omega
  have hd : n / 10 < 10 := by omega
  simp [hn, natToDigits_lt10 hd]

theorem natToDigits_ne_nil (n : Nat) : natToDigits n ≠ [] := by
  rw [natToDigits_eq]
  split
  · simp
  · simp

theorem natToDigits_all_digit (n : Nat) : ∀ c ∈ natToDigits n, c.isDigit = true := by
  induction n using Nat.strong_induction_on with
  | _ n ih =>
    rw [natToDigits_eq]
    split
    · intro c hc
      rw [List.mem_singleton] at hc
      subst hc
      exact digitChar_isDigit (by omega)
    · intro c hc
      rcases List.mem_append.1 hc with hc | hc
      · exact ih (n / 10) (Nat.div_lt_self (by omega) (by omega)) c hc
      · rw [List.mem_singleton] at hc
        subst hc
        exact digitChar_isDigit (Nat.mod_lt _ (by omega))

theorem twoDigits_eq {n : Nat} (h : n < 100) :
    zfill 2 (natToDigits n) = [digitChar (n / 10), digitChar (n % 10)] := by
  by_cases h10 : n < 10
  · rw [natToDigits_lt10 h10]
    have : n / 10 = 0 := by omega
    have hm : n % 10 = n := by omega
    simp [zfill, this, hm, List.replicate, digitChar]
  · rw [natToDigits_two (by omega) h, zfill]
    simp

theorem threeDigits_eq {n : Nat} (h : n < 1000) :
    zfill 3 (natToDigits n) =
      [digitChar (n / 100), digitChar (n / 10 % 10), digitChar (n % 10)] := by
  by_cases h10 : n < 10
  · rw [natToDigits_lt10 h10]
    have e1 : n / 100 = 0 := by omega
    have e2 : n / 10 % 10 = 0 := by omega
    have e3 : n % 10 = n := by omega
    simp [zfill, e1, e2, e3, List.replicate, digitChar]
  · by_cases h100 : n < 100
    · rw [natToDigits_two (by omega) h100]
      have e1 : n / 100 = 0 := by omega
      have e2 : n / 10 % 10 = n / 10 := by omega
      simp [zfill, e1, e2, List.replicate, digitChar]
    · have hq : 10 ≤ n / 10 := by omega
      have hq2 : n / 10 < 100 := by omega
      rw [natToDigits_eq]
      have hn : ¬ n < 10 := by omega
      simp only [hn, dite_false]
      rw [natToDigits_two hq hq2]
      have e1 : n / 10 / 10 = n / 100 := by omega
      simp [zfill, e1]


/-! ### Shape of the duration rendering (C10) -/

theorem zfill_of_le {w : Nat} {ds : Str} (h : w ≤ ds.length) : zfill w ds = ds := by
  simp [zfill, Nat.sub_eq_zero_of_le h]

theorem natToDigits_length_pos (n : Nat) : 0 < (natToDigits n).length :=
  List.length_pos.mpr (natToDigits_ne_nil n)

theorem pyFmtD_ofNat (w k : Nat) : pyFmtD w ((k : Nat) : Int) = zfill w (natToDigits k) := by
  have h : ¬ (((k : Nat) : Int) < 0) := by
    simp
  simp [pyFmtD, h, Int.toNat_natCast]

theorem format_duration_ms_def (ms : Int) :
    format_duration_ms ms =
      pyFmtD 2 (Int.fdiv (Int.fdiv (Int.fdiv ms 1000) 60) 60) ++
        ':' :: pyFmtD 2 (Int.fmod (Int.fdiv (Int.fdiv ms 1000) 60) 60) ++
        ':' :: pyFmtD 2 (Int.fmod (Int.fdiv ms 1000) 60) ++
        '.' :: pyFmtD 3 (Int.fmod ms 1000) := rfl

theorem fdiv_natCast (m n : Nat) :
    Int.fdiv ((m : Nat) : Int) ((n : Nat) : Int) = (((m / n : Nat)) : Int) :=
  (Int.ofNat_fdiv m n).symm

theorem fmod_natCast (m n : Nat) :
    Int.fmod ((m : Nat) : Int) ((n : Nat) : Int) = (((m % n : Nat)) : Int) :=
  (Int.ofNat_fmod m n).symm

theorem format_duration_ms_ofNat (n : Nat) :
    format_duration_ms ((n : Nat) : Int) =
      zfill 2 (natToDigits (n / 1000 / 60 / 60)) ++
        ':' :: zfill 2 (natToDigits (n / 1000 / 60 % 60)) ++
        ':' :: zfill 2 (natToDigits (n / 1000 % 60)) ++
        '.' :: zfill 3 (natToDigits (n % 1000)) := by
  have c1000 : ((1000 : Int)) = (((1000 : Nat)) : Int) := rfl
  have c60 : ((60 : Int)) = (((60 : Nat)) : Int) := rfl
  rw [format_duration_ms_def, c1000, c60, fdiv_natCast, fdiv_natCast, fdiv_natCast,
    fmod_natCast, fmod_natCast, fmod_natCast, pyFmtD_ofNat, pyFmtD_ofNat,
    pyFmtD_ofNat, pyFmtD_ofNat]

/-- C10: for `0 ≤ ms < 360000000` the rendering is exactly
`HH:MM:SS.mmm` — twelve characters, all digits except the two colons and
the dot, with two-digit hours and minutes/seconds in `0..59` and
three-digit milliseconds; for `ms < 0` the floor-division carry makes the
hours field negative (a sign then the digits of the absolute hour count,
e.g. `-1` renders `-1:59:59.999`) while minutes, seconds and milliseconds
stay in their normal ranges, so the documented fixed-width format is
broken. -/
theorem c10_format_duration_ms_shape :
    (∀ ms : Int, 0 ≤ ms → ms < 360000000 →
      ∃ h m s q : Nat, h < 100 ∧ m < 60 ∧ s < 60 ∧ q < 1000 ∧
        ms = ((h * 3600000 + m * 60000 + s * 1000 + q : Nat) : Int) ∧
        format_duration_ms ms =
          [digitChar (h / 10), digitChar (h % 10), ':',
           digitChar (m / 10), digitChar (m % 10), ':',
           digitChar (s / 10), digitChar (s % 10), '.',
           digitChar (q / 100), digitChar (q / 10 % 10), digitChar (q % 10)] ∧
        (∀ c ∈ format_duration_ms ms, c = ':' ∨ c = '.' ∨ c.isDigit = true) ∧
        (format_duration_ms ms).length = 12) ∧
    (∀ ms : Int, ms < 0 →
      ∃ hAbs m s q : Nat, 0 < hAbs ∧ m < 60 ∧ s < 60 ∧ q < 1000 ∧
        ms = -((hAbs : Nat) : Int) * 3600000 + ((m * 60000 + s * 1000 + q : Nat) : Int) ∧
        format_duration_ms ms =
          '-' :: (natToDigits hAbs ++
            ':' :: [digitChar (m / 10), digitChar (m % 10)] ++
            ':' :: [digitChar (s / 10), digitChar (s % 10)] ++
            '.' :: [digitChar (q / 100), digitChar (q / 10 % 10), digitChar (q % 10)])) := by
  constructor
  · intro ms h0 h1
    lift ms to Nat using h0 with n
    have hn : n < 360000000 := by exact_mod_cast h1
    refine ⟨n / 3600000, n / 60000 % 60, n / 1000 % 60, n % 1000,
      by omega, Nat.mod_lt _ (by omega), Nat.mod_lt _ (by omega),
      Nat.mod_lt _ (by omega), by push_cast; omega, ?_, ?_, ?_⟩
    all_goals
      have d1 : n / 1000 / 60 / 60 = n / 3600000 := by omega
      have d2 : n / 1000 / 60 % 60 = n / 60000 % 60 := by omega
      have hlit : format_duration_ms ((n : Nat) : Int) =
          [digitChar (n / 3600000 / 10), digitChar (n / 3600000 % 10), ':',
           digitChar (n / 60000 % 60 / 10), digitChar (n / 60000 % 60 % 10), ':',
           digitChar (n / 1000 % 60 / 10), digitChar (n / 1000 % 60 % 10), '.',
           digitChar (n % 1000 / 100), digitChar (n % 1000 / 10 % 10),
           digitChar (n % 1000 % 10)] := by
        rw [format_duration_ms_ofNat, d1, d2,
          twoDigits_eq (show n / 3600000 < 100 by omega),
          twoDigits_eq (show n / 60000 % 60 < 100 by omega),
          twoDigits_eq (show n / 1000 % 60 < 100 by omega),
          threeDigits_eq (show n % 1000 < 1000 by omega)]
        rfl
    · exact hlit
    · intro c hc
      rw [hlit] at hc
      simp only [List.mem_cons, List.not_mem_nil, or_false] at hc
      rcases hc with rfl | rfl | rfl | rfl | rfl | rfl | rfl | rfl | rfl | rfl | rfl | rfl
      · exact Or.inr (Or.inr (digitChar_isDigit (by omega)))
      · exact Or.inr (Or.inr (digitChar_isDigit (by omega)))
      · exact Or.inl rfl
      · exact Or.inr (Or.inr (digitChar_isDigit (by omega)))
      · exact Or.inr (Or.inr (digitChar_isDigit (by omega)))
      · exact Or.inl rfl
      · exact Or.inr (Or.inr (digitChar_isDigit (by omega)))
      · exact Or.inr (Or.inr (digitChar_isDigit (by omega)))
      · exact Or.inr (Or.inl rfl)
      · exact Or.inr (Or.inr (digitChar_isDigit (by omega)))
      · exact Or.inr (Or.inr (digitChar_isDigit (by omega)))
      · exact Or.inr (Or.inr (digitChar_isDigit (by omega)))
    · rw [hlit]
      rfl
  · intro ms hneg
    have h1000 : (0 : Int) < 1000 := by decide
    have h60 : (0 : Int) < 60 := by decide
    have hid1 := Int.fdiv_add_fmod ms 1000
    have hr1a := Int.fmod_nonneg' ms h1000
    have hr1b := Int.fmod_lt_of_pos ms h1000
    have hid2 := Int.fdiv_add_fmod (Int.fdiv ms 1000) 60
    have hr2a := Int.fmod_nonneg' (Int.fdiv ms 1000) h60
    have hr2b := Int.fmod_lt_of_pos (Int.fdiv ms 1000) h60
    have hid3 := Int.fdiv_add_fmod (Int.fdiv (Int.fdiv ms 1000) 60) 60
    have hr3a := Int.fmod_nonneg' (Int.fdiv (Int.fdiv ms 1000) 60) h60
    have hr3b := Int.fmod_lt_of_pos (Int.fdiv (Int.fdiv ms 1000) 60) h60
    have hq1 : Int.fdiv ms 1000 < 0 := Int.fdiv_neg' hneg h1000
    have hq2 : Int.fdiv (Int.fdiv ms 1000) 60 < 0 := Int.fdiv_neg' hq1 h60
    have hq3 : Int.fdiv (Int.fdiv (Int.fdiv ms 1000) 60) 60 < 0 := Int.fdiv_neg' hq2 h60
    refine ⟨(Int.fdiv (Int.fdiv (Int.fdiv ms 1000) 60) 60).natAbs,
      (Int.fmod (Int.fdiv (Int.fdiv ms 1000) 60) 60).toNat,
      (Int.fmod (Int.fdiv ms 1000) 60).toNat,
      (Int.fmod ms 1000).toNat, ?_, ?_, ?_, ?_, ?_, ?_⟩
    · exact Int.natAbs_pos.mpr (by omega)
    · omega
    · omega
    · omega
    · have h3' : ((Int.fmod (Int.fdiv (Int.fdiv ms 1000) 60) 60).toNat : Int) =
          Int.fmod (Int.fdiv (Int.fdiv ms 1000) 60) 60 := Int.toNat_of_nonneg hr3a
      have h2' : ((Int.fmod (Int.fdiv ms 1000) 60).toNat : Int) =
          Int.fmod (Int.fdiv ms 1000) 60 := Int.toNat_of_nonneg hr2a
      have h1' : ((Int.fmod ms 1000).toNat : Int) = Int.fmod ms 1000 :=
        Int.toNat_of_nonneg hr1a
      have habs : (((Int.fdiv (Int.fdiv (Int.fdiv ms 1000) 60) 60).natAbs : Nat) : Int) =
          -(Int.fdiv (Int.fdiv (Int.fdiv ms 1000) 60) 60) := by omega
      simp only [Nat.cast_add, Nat.cast_mul, Nat.cast_ofNat]
      rw [habs, h3', h2', h1']
      omega
    · rw [format_duration_ms_def]
      have hfh : pyFmtD 2 (Int.fdiv (Int.fdiv (Int.fdiv ms 1000) 60) 60) =
          '-' :: natToDigits (Int.fdiv (Int.fdiv (Int.fdiv ms 1000) 60) 60).natAbs := by
        rw [pyFmtD, if_pos hq3, zfill_of_le (by
          have := natToDigits_length_pos
            (Int.fdiv (Int.fdiv (Int.fdiv ms 1000) 60) 60).natAbs
          omega)]
      have hfm : pyFmtD 2 (Int.fmod (Int.fdiv (Int.fdiv ms 1000) 60) 60) =
          [digitChar ((Int.fmod (Int.fdiv (Int.fdiv ms 1000) 60) 60).toNat / 10),
           digitChar ((Int.fmod (Int.fdiv (Int.fdiv ms 1000) 60) 60).toNat % 10)] := by
        rw [show Int.fmod (Int.fdiv (Int.fdiv ms 1000) 60) 60 =
            (((Int.fmod (Int.fdiv (Int.fdiv ms 1000) 60) 60).toNat : Nat) : Int) from
          (Int.toNat_of_nonneg hr3a).symm, pyFmtD_ofNat, twoDigits_eq (by omega)]
        simp [sup_eq_left.mpr hr3a]
      have hfs : pyFmtD 2 (Int.fmod (Int.fdiv ms 1000) 60) =
          [digitChar ((Int.fmod (Int.fdiv ms 1000) 60).toNat / 10),
           digitChar ((Int.fmod (Int.fdiv ms 1000) 60).toNat % 10)] := by
        rw [show Int.fmod (Int.fdiv ms 1000) 60 =
            (((Int.fmod (Int.fdiv ms 1000) 60).toNat : Nat) : Int) from
          (Int.toNat_of_nonneg hr2a).symm, pyFmtD_ofNat, twoDigits_eq (by omega)]
        simp [sup_eq_left.mpr hr2a]
      have hfq : pyFmtD 3 (Int.fmod ms 1000) =
          [digitChar ((Int.fmod ms 1000).toNat / 100),
           digitChar ((Int.fmod ms 1000).toNat / 10 % 10),
           digitChar ((Int.fmod ms 1000).toNat % 10)] := by
        rw [show Int.fmod ms 1000 = (((Int.fmod ms 1000).toNat : Nat) : Int) from
          (Int.toNat_of_nonneg hr1a).symm, pyFmtD_ofNat, threeDigits_eq (by omega)]
        simp [sup_eq_left.mpr hr1a]
      rw [hfh, hfm, hfs, hfq]
      simp [List.cons_append, List.append_assoc]

theorem c10_format_duration_ms_shape_witness :
    ((0 : Int) ≤ 7322001) ∧ ((7322001 : Int) < 360000000) ∧
    (∃ h m s q : Nat, h < 100 ∧ m < 60 ∧ s < 60 ∧ q < 1000 ∧
      (7322001 : Int) = ((h * 3600000 + m * 60000 + s * 1000 + q : Nat) : Int) ∧
      format_duration_ms 7322001 =
        [digitChar (h / 10), digitChar (h % 10), ':',
         digitChar (m / 10), digitChar (m % 10), ':',
         digitChar (s / 10), digitChar (s % 10), '.',
         digitChar (q / 100), digitChar (q / 10 % 10), digitChar (q % 10)] ∧
      (∀ c ∈ format_duration_ms 7322001, c = ':' ∨ c = '.' ∨ c.isDigit = true) ∧
      (format_duration_ms 7322001).length = 12) ∧
    ((-1 : Int) < 0) ∧
    (∃ hAbs m s q : Nat, 0 < hAbs ∧ m < 60 ∧ s < 60 ∧ q < 1000 ∧
      (-1 : Int) = -((hAbs : Nat) : Int) * 3600000 + ((m * 60000 + s * 1000 + q : Nat) : Int) ∧
      format_duration_ms (-1) =
        '-' :: (natToDigits hAbs ++
          ':' :: [digitChar (m / 10), digitChar (m % 10)] ++
          ':' :: [digitChar (s / 10), digitChar (s % 10)] ++
          '.' :: [digitChar (q / 100), digitChar (q / 10 % 10), digitChar (q % 10)])) :=
  ⟨by decide, by decide,
   c10_format_duration_ms_shape.1 7322001 (by decide) (by decide),
   by decide,
   c10_format_duration_ms_shape.2 (-1) (by decide)⟩

/-! ### Symbolic evaluation of the line regex on well-shaped lines -/

theorem eventTailMatch_canonical (evt tail : Str) (h3 : ∀ c ∈ evt, c ≠ '-') :
    ∃ evtG : Str,
      eventTailMatch (' ' :: (evt ++ ' ' :: '-' :: tail)) =
        some (evtG, some (tail.dropWhile pyWs)) ∧
      pyStrip evtG = pyStrip evt := by
  have hsp : pyWs ' ' = true := by decide
  have hdash : pyWs '-' = false := by decide
  have d1 : ((' ' : Char) != '-') = true := by decide
  have d2 : (('-' : Char) != '-') = false := by decide
  rcases hle : lstrip evt with _ | ⟨e, es⟩
  · have hallws : ∀ c ∈ evt, pyWs c = true := lstrip_eq_nil_all_ws hle
    have hdrop : (' ' :: (evt ++ ' ' :: '-' :: tail)).dropWhile pyWs = '-' :: tail := by
      rw [List.dropWhile_cons]
      simp only [hsp, if_true]
      rw [dropWhile_append_all _ hallws, List.dropWhile_cons]
      simp only [hsp, if_true]
      rw [List.dropWhile_cons]
      simp [hdash]
    have hwform : (' ' :: (evt ++ ' ' :: '-' :: tail)).takeWhile pyWs =
        ' ' :: (evt ++ ' ' :: '-' :: tail).takeWhile pyWs := by
      rw [List.takeWhile_cons]
      simp [hsp]
    have hwne : ((' ' :: (evt ++ ' ' :: '-' :: tail)).takeWhile pyWs).isEmpty = false := by
      rw [hwform]
      rfl
    refine ⟨((' ' :: (evt ++ ' ' :: '-' :: tail)).takeWhile pyWs).drop
        (((' ' :: (evt ++ ' ' :: '-' :: tail)).takeWhile pyWs).length - 1), ?_, ?_⟩
    · unfold eventTailMatch
      rw [hdrop]
      simp [eventTailCore, hwne]
    · have hmem : ∀ c ∈ ((' ' :: (evt ++ ' ' :: '-' :: tail)).takeWhile pyWs).drop
          (((' ' :: (evt ++ ' ' :: '-' :: tail)).takeWhile pyWs).length - 1),
          pyWs c = true := by
        intro c hc
        exact List.mem_takeWhile_imp
          (List.Sublist.mem hc (List.drop_sublist _ _))
      rw [pyStrip_all_ws hmem, pyStrip_all_ws hallws]
  · have he : pyWs e = false := head_lstrip_neg hle
    have hemem : e ∈ evt := by
      have h0 : e ∈ lstrip evt := by
        rw [hle]
        exact List.mem_cons_self e es
      exact List.Sublist.mem h0 (List.dropWhile_sublist _)
    have hene : e ≠ '-' := h3 e hemem
    have h3b : ∀ c ∈ e :: es, (c != '-') = true := by
      intro c hc
      rw [← hle] at hc
      have hcevt : c ∈ evt := List.Sublist.mem hc (List.dropWhile_sublist _)
      simpa [bne_iff_ne] using h3 c hcevt
    have hdrop : (' ' :: (evt ++ ' ' :: '-' :: tail)).dropWhile pyWs =
        e :: (es ++ (' ' :: '-' :: tail)) := by
      rw [List.dropWhile_cons]
      simp only [hsp, if_true]
      rw [List.dropWhile_append]
      have : (evt.dropWhile pyWs).isEmpty = false := by
        rw [show evt.dropWhile pyWs = e :: es from hle]
        rfl
      simp [this, show evt.dropWhile pyWs = e :: es from hle]
    have htke : (e :: (es ++ (' ' :: '-' :: tail))).takeWhile (fun x => x != '-') =
        e :: (es ++ [' ']) := by
      have h0 := takeWhile_append_all (p := fun x => x != '-')
        (a := e :: es) (' ' :: '-' :: tail) h3b
      rw [List.cons_append] at h0
      rw [h0]
      rw [List.takeWhile_cons]
      simp only [d1, if_true]
      rw [takeWhile_cons_neg (p := fun x => x != '-') _ d2]
      simp
    have hdpe : (e :: (es ++ (' ' :: '-' :: tail))).dropWhile (fun x => x != '-') =
        '-' :: tail := by
      have h0 := dropWhile_append_all (p := fun x => x != '-')
        (a := e :: es) (' ' :: '-' :: tail) h3b
      rw [List.cons_append] at h0
      rw [h0, List.dropWhile_cons]
      simp only [d1, if_true]
      rw [dropWhile_cons_neg (p := fun x => x != '-') _ d2]
    refine ⟨e :: (es ++ [' ']), ?_, ?_⟩
    · unfold eventTailMatch
      rw [hdrop]
      simp only [eventTailCore]
      rw [if_neg hene]
      simp only [eventTailNum]
      rw [htke, hdpe]
      rfl
    · have h1 : pyStrip (e :: (es ++ [' '])) = pyStrip (e :: es) := by
        have := pyStrip_snoc_ws (c := ' ') (e :: es) hsp
        simpa [List.cons_append] using this
      rw [h1, ← hle, pyStrip_lstrip]

theorem lineReMatch_canonical (ts comp evt tail : Str) (hts : ts ≠ [])
    (h1 : ∀ c ∈ ts, c ≠ ']') (h2 : ∀ c ∈ comp, c ≠ ':') (h3 : ∀ c ∈ evt, c ≠ '-') :
    ∃ evtG : Str,
      lineReMatch
          ('[' :: (ts ++ ']' :: ' ' :: (comp ++ ':' :: ' ' :: (evt ++ ' ' :: '-' :: tail)))) =
        some (ts, ' ' :: comp, evtG, some (tail.dropWhile pyWs)) ∧
      pyStrip evtG = pyStrip evt := by
  obtain ⟨evtG, hm, hs⟩ := eventTailMatch_canonical evt tail h3
  refine ⟨evtG, ?_, hs⟩
  have h1b : ∀ c ∈ ts, (c != ']') = true := fun c hc => by
    simpa [bne_iff_ne] using h1 c hc
  have h2b : ∀ c ∈ comp, (c != ':') = true := fun c hc => by
    simpa [bne_iff_ne] using h2 c hc
  have d3 : ((']' : Char) != ']') = false := by decide
  have d4 : ((' ' : Char) != ':') = true := by decide
  have d5 : (((':') : Char) != ':') = false := by decide
  have htk1 : (ts ++ ']' :: ' ' :: (comp ++ ':' :: ' ' :: (evt ++ ' ' :: '-' :: tail))).takeWhile
      (fun c => c != ']') = ts := by
    rw [takeWhile_append_all _ h1b, takeWhile_cons_neg (p := fun c => c != ']') _ d3]
    simp
  have hdp1 : (ts ++ ']' :: ' ' :: (comp ++ ':' :: ' ' :: (evt ++ ' ' :: '-' :: tail))).dropWhile
      (fun c => c != ']') = ']' :: ' ' :: (comp ++ ':' :: ' ' :: (evt ++ ' ' :: '-' :: tail)) := by
    rw [dropWhile_append_all _ h1b, dropWhile_cons_neg (p := fun c => c != ']') _ d3]
  have htsE : ts.isEmpty = false := by
    cases ts
    · exact absurd rfl hts
    · rfl
  have htk2 : (' ' :: (comp ++ ':' :: ' ' :: (evt ++ ' ' :: '-' :: tail))).takeWhile
      (fun c => c != ':') = ' ' :: comp := by
    rw [List.takeWhile_cons]
    simp only [d4, if_true]
    rw [takeWhile_append_all _ h2b, takeWhile_cons_neg (p := fun c => c != ':') _ d5]
    simp
  have hdp2 : (' ' :: (comp ++ ':' :: ' ' :: (evt ++ ' ' :: '-' :: tail))).dropWhile
      (fun c => c != ':') = ':' :: ' ' :: (evt ++ ' ' :: '-' :: tail) := by
    rw [List.dropWhile_cons]
    simp only [d4, if_true]
    rw [dropWhile_append_all _ h2b, dropWhile_cons_neg (p := fun c => c != ':') _ d5]
  simp only [lineReMatch]
  rw [htk1, hdp1]
  simp only [lineReAfterTs]
  rw [htsE]
  simp only [Bool.false_eq_true, if_false, lineReComp]
  rw [htk2, hdp2]
  simp only [lineReAfterComp, List.isEmpty_cons, Bool.false_eq_true, if_false]
  rw [hm]

theorem pyStrip_cons_ws {c : Char} (s : Str) (h : pyWs c = true) :
    pyStrip (c :: s) = pyStrip s := by
  simp [pyStrip, lstrip, List.dropWhile_cons, h]

theorem pyStrip_eq_lstrip_rstrip (s : Str) : pyStrip s = lstrip (rstrip s) :=
  (lstrip_rstrip_comm s).symm

theorem parseLine_mkLine (ts comp evt det : Str) (hts : ts ≠ [])
    (h1 : ∀ c ∈ ts, c ≠ ']') (h2 : ∀ c ∈ comp, c ≠ ':') (h3 : ∀ c ∈ evt, c ≠ '-') :
    parseLine (mkLine ts comp evt det) =
      some { ts := pyFromIsoformat ts
             component := some (pyStrip comp)
             event := some (pyStrip evt)
             details := pyStrip det
             raw := pyStrip (mkLine ts comp evt det) } := by
  have hsp : pyWs ' ' = true := by decide
  have hlb : pyWs '[' = false := by decide
  have hdb : pyWs '-' = false := by decide
  have hsplit : mkLine ts comp evt det =
      ('[' :: (ts ++ ']' :: ' ' :: (comp ++ ':' :: ' ' :: (evt ++ [' ', '-'])))) ++
        (' ' :: det) := by
    simp [mkLine, List.append_assoc]
  by_cases hdet : rstrip det = []
  · have htail : rstrip (' ' :: det) = [] := by
      rw [rstrip_cons_of_rstrip_nil hdet]
      exact rstrip_all_ws (by intro x hx; rw [List.mem_singleton.1 hx]; exact hsp)
    have hstrip : pyStrip (mkLine ts comp evt det) =
        '[' :: (ts ++ ']' :: ' ' :: (comp ++ ':' :: ' ' :: (evt ++ ' ' :: '-' :: ([] : Str)))) := by
      rw [pyStrip_eq_lstrip_rstrip, hsplit, rstrip_append_nil _ htail]
      have hsplit2 : ('[' :: (ts ++ ']' :: ' ' :: (comp ++ ':' :: ' ' :: (evt ++ [' ', '-'])))) =
          ('[' :: (ts ++ ']' :: ' ' :: (comp ++ ':' :: ' ' :: (evt ++ [' '])))) ++ ['-'] := by
        simp [List.append_assoc]
      rw [hsplit2, rstrip_snoc_neg _ hdb, ← hsplit2, lstrip_cons_neg _ hlb]
    obtain ⟨evtG, hm, hs⟩ := lineReMatch_canonical ts comp evt [] hts h1 h2 h3
    have hdetnil : pyStrip det = [] := pyStrip_all_ws (rstrip_nil_all_ws hdet)
    simp only [parseLine]
    rw [hstrip, hm]
    have e2 : pyStrip ([] : Str) = pyStrip det := by
      rw [hdetnil]
      rfl
    simp [pyStrip_cons_ws _ hsp, hs, e2]
  · have htail : rstrip (' ' :: det) = ' ' :: rstrip det := rstrip_cons_of_rstrip_ne hdet
    have hstrip : pyStrip (mkLine ts comp evt det) =
        '[' :: (ts ++ ']' :: ' ' :: (comp ++ ':' :: ' ' ::
          (evt ++ ' ' :: '-' :: (' ' :: rstrip det)))) := by
      rw [pyStrip_eq_lstrip_rstrip, hsplit,
        rstrip_append_ne _ (by rw [htail]; exact List.cons_ne_nil _ _), htail]
      have hre : ('[' :: (ts ++ ']' :: ' ' :: (comp ++ ':' :: ' ' :: (evt ++ [' ', '-'])))) ++
          (' ' :: rstrip det) =
          '[' :: (ts ++ ']' :: ' ' :: (comp ++ ':' :: ' ' ::
            (evt ++ ' ' :: '-' :: (' ' :: rstrip det)))) := by
        simp [List.append_assoc]
      rw [hre, lstrip_cons_neg _ hlb]
    obtain ⟨evtG, hm, hs⟩ :=
      lineReMatch_canonical ts comp evt (' ' :: rstrip det) hts h1 h2 h3
    have hdetail : pyStrip ((' ' :: rstrip det).dropWhile pyWs) = pyStrip det := by
      rw [List.dropWhile_cons]
      simp only [hsp, if_true]
      rw [pyStrip_lstrip_outer, pyStrip_rstrip]
    simp only [parseLine]
    rw [hstrip, hm]
    simp [pyStrip_cons_ws _ hsp, hs, hdetail]

theorem parseLine_isSome_iff (ln : Str) : (parseLine ln).isSome = !(pyStrip ln).isEmpty := by
  by_cases h : (pyStrip ln).isEmpty = true
  · simp [parseLine, h]
  · simp only [Bool.not_eq_true] at h
    cases hm : lineReMatch (pyStrip ln) with
    | none => simp [parseLine, h, hm]
    | some q =>
      obtain ⟨tsS, compSeg, evtG, detG⟩ := q
      simp [parseLine, h, hm]

/-- C2 (amended): for every line of the shape `[<ts>] <comp>: <evt> - <details>`
whose timestamp part contains no `]`, whose component contains no `:` and
whose event name contains no `-` (the regex delimits the event at the first
hyphen, not at the first ` - `), the parser recovers the component, event
and details exactly modulo surrounding whitespace, with the component
terminating at the first colon and the event terminating at the first
hyphen. -/
theorem c2_line_parser_recovers_fields (ts comp evt det : Str) (hts : ts ≠ [])
    (h1 : ∀ c ∈ ts, c ≠ ']') (h2 : ∀ c ∈ comp, c ≠ ':') (h3 : ∀ c ∈ evt, c ≠ '-') :
    parse_log_lines [mkLine ts comp evt det] =
      [{ ts := pyFromIsoformat ts
         component := some (pyStrip comp)
         event := some (pyStrip evt)
         details := pyStrip det
         raw := pyStrip (mkLine ts comp evt det) }] := by
  simp [parse_log_lines, List.filterMap, parseLine_mkLine ts comp evt det hts h1 h2 h3]

theorem c2_line_parser_recovers_fields_witness :
    ("2025-12-30T00:12:53.921546".toList ≠ ([] : Str)) ∧
    (∀ c ∈ "2025-12-30T00:12:53.921546".toList, c ≠ ']') ∧
    (∀ c ∈ "OCR".toList, c ≠ ':') ∧
    (∀ c ∈ "initialize".toList, c ≠ '-') ∧
    parse_log_lines
        [mkLine "2025-12-30T00:12:53.921546".toList "OCR".toList
          "initialize".toList "finished".toList] =
      [{ ts := pyFromIsoformat "2025-12-30T00:12:53.921546".toList
         component := some (pyStrip "OCR".toList)
         event := some (pyStrip "initialize".toList)
         details := pyStrip "finished".toList
         raw := pyStrip (mkLine "2025-12-30T00:12:53.921546".toList "OCR".toList
           "initialize".toList "finished".toList) }] :=
  ⟨by decide, by decide, by decide, by decide,
   c2_line_parser_recovers_fields _ _ _ _ (by decide) (by decide) (by decide) (by decide)⟩

/-- C2 counterexample to the claim as stated: in
`[2025-01-01T00:00:00] SCENE: self-test - ok` the event by the claim's
reading (terminate at the first ` - `) would be `self-test` with details
`ok`, but the code's regex terminates the event at the first hyphen and
yields event `self` with details `test - ok`. -/
theorem c2_counterexample :
    (parse_log_lines [mkLine "2025-01-01T00:00:00".toList "SCENE".toList
        "self-test".toList "ok".toList]).map (fun e => (e.event, e.details)) =
      [(some "self".toList, "test - ok".toList)] ∧
    ((some "self".toList : Option Str), "test - ok".toList) ≠
      ((some "self-test".toList : Option Str), "ok".toList) := by
  constructor
  · rfl
  · decide

/-- C7: `parse_log_lines` is total and degrades gracefully: (a) it returns
one event per non-blank line, never aborting; (b) a well-shaped line whose
bracketed timestamp fails ISO-8601 parsing still yields an event with
`timestamp = None` and the other fields populated; (c) a non-blank line
not matching the grammar yields a degraded record retaining the raw line,
with `details` equal to it. -/
theorem c7_parse_never_raises :
    (∀ lines : List Str,
      (parse_log_lines lines).length =
        lines.countP (fun ln => !(pyStrip ln).isEmpty)) ∧
    (∀ ts comp evt det : Str, ts ≠ [] → (∀ c ∈ ts, c ≠ ']') →
      (∀ c ∈ comp, c ≠ ':') → (∀ c ∈ evt, c ≠ '-') → pyFromIsoformat ts = none →
      parse_log_lines [mkLine ts comp evt det] =
        [{ ts := none, component := some (pyStrip comp), event := some (pyStrip evt),
           details := pyStrip det, raw := pyStrip (mkLine ts comp evt det) }]) ∧
    (∀ ln : Str, pyStrip ln ≠ [] → lineReMatch (pyStrip ln) = none →
      parse_log_lines [ln] =
        [{ ts := none, component := none, event := none,
           details := pyStrip ln, raw := pyStrip ln }]) := by
  refine ⟨?_, ?_, ?_⟩
  · intro lines
    induction lines with
    | nil => rfl
    | cons l ls ih =>
      have hiff := parseLine_isSome_iff l
      cases hpl : parseLine l with
      | none =>
        have hc : (!(pyStrip l).isEmpty) = false := by
          rw [← hiff, hpl]
          rfl
        simp only [parse_log_lines, List.filterMap_cons, hpl, List.countP_cons, hc]
        simpa [parse_log_lines] using ih
      | some ev =>
        have hc : (!(pyStrip l).isEmpty) = true := by
          rw [← hiff, hpl]
          rfl
        simp only [parse_log_lines, List.filterMap_cons, hpl, List.countP_cons, hc]
        simp only [parse_log_lines] at ih
        simp [ih]
  · intro ts comp evt det hts h1 h2 h3 hiso
    have h := parseLine_mkLine ts comp evt det hts h1 h2 h3
    rw [hiso] at h
    simp [parse_log_lines, List.filterMap, h]
  · intro ln hne hnm
    have hE : (pyStrip ln).isEmpty = false := by
      rcases h : pyStrip ln with _ | ⟨c, cs⟩
      · exact absurd h hne
      · rfl
    have hp : parseLine ln =
        some { ts := none, component := none, event := none,
               details := pyStrip ln, raw := pyStrip ln } := by
      simp [parseLine, hE, hnm]
    simp [parse_log_lines, List.filterMap, hp]

theorem c7_parse_never_raises_witness :
    pyFromIsoformat "XXXX".toList = none ∧
    parse_log_lines [mkLine "XXXX".toList "C".toList "ev".toList "d".toList] =
      [{ ts := none, component := some (pyStrip "C".toList),
         event := some (pyStrip "ev".toList), details := pyStrip "d".toList,
         raw := pyStrip (mkLine "XXXX".toList "C".toList "ev".toList "d".toList) }] ∧
    pyStrip "hello world".toList ≠ [] ∧
    lineReMatch (pyStrip "hello world".toList) = none ∧
    parse_log_lines ["hello world".toList] =
      [{ ts := none, component := none, event := none,
         details := pyStrip "hello world".toList, raw := pyStrip "hello world".toList }] :=
  ⟨by decide,
   c7_parse_never_raises.2.1 _ _ _ _ (by decide) (by decide) (by decide) (by decide)
     (by decide),
   by decide, by decide,
   c7_parse_never_raises.2.2 _ (by decide) (by decide)⟩

/-! ### Duration computation lemmas (C3, C9) -/

theorem clearedDur_ts (e : Event) : (clearedDur e).ts = e.ts := rfl

theorem durStep_ts (prev cur : Event) : (durStep prev cur).ts = cur.ts := by
  cases cur with
  | mk cts ccomp cev cdet craw cdm cdh =>
    rcases hp : prev.ts with _ | tp <;> cases cts <;> simp [durStep, hp]

theorem durStep_dms (prev cur : Event) :
    (durStep prev cur).duration_ms =
      match prev.ts, cur.ts with
      | some tp, some tc => some (msBetween tp tc)
      | _, _ => none := by
  cases cur with
  | mk cts ccomp cev cdet craw cdm cdh =>
    rcases hp : prev.ts with _ | tp <;> cases cts <;> simp [durStep, hp]

theorem firstStep_ts (e0 : Event) : (firstStep e0).ts = e0.ts := by
  cases e0 with
  | mk ets ecomp eev edet eraw edm edh => cases ets <;> simp [firstStep]

theorem firstStep_dms (e0 : Event) :
    (firstStep e0).duration_ms =
      match e0.ts with
      | some _ => some 0
      | none => none := by
  cases e0 with
  | mk ets ecomp eev edet eraw edm edh => cases ets <;> simp [firstStep]

theorem durLoop_length (prev : Event) (l : List Event) :
    (durLoop prev l).length = l.length := by
  induction l generalizing prev with
  | nil => rfl
  | cons cur rest ih =>
    simp only [durLoop, List.length_cons]
    rw [ih]

theorem tsAt_cons_zero (e : Event) (l : List Event) : tsAt (e :: l) 0 = e.ts := by
  simp [tsAt]

theorem tsAt_cons_succ (e : Event) (l : List Event) (j : Nat) :
    tsAt (e :: l) (j + 1) = tsAt l j := by
  simp [tsAt]

theorem durLoop_dms (prev : Event) (l : List Event) (i : Nat) (h : i < l.length) :
    ((durLoop prev l)[i]?).map (fun e => e.duration_ms) =
      some (match (if i = 0 then prev.ts else tsAt l (i - 1)), tsAt l i with
            | some tp, some tc => some (msBetween tp tc)
            | _, _ => none) := by
  induction l generalizing prev i with
  | nil => simp at h
  | cons cur rest ih =>
    cases i with
    | zero =>
      simp only [durLoop, List.getElem?_cons_zero, tsAt_cons_zero]
      simp [durStep_dms]
    | succ j =>
      have hj : j < rest.length := by simpa using h
      simp only [durLoop, List.getElem?_cons_succ]
      rw [ih (durStep prev cur) j hj]
      cases j with
      | zero => simp [durStep_ts, tsAt_cons_zero, tsAt_cons_succ]
      | succ k => simp [tsAt_cons_succ]

theorem computeCore_length (l : List Event) : (computeCore l).length = l.length := by
  cases l with
  | nil => rfl
  | cons e0 rest =>
    simp only [computeCore, List.length_cons]
    rw [durLoop_length]

theorem compute_inference_duration_length (events : List Event) :
    (compute_inference_duration events).length = events.length := by
  rw [compute_inference_duration, computeCore_length, List.length_map]

theorem tsAt_map_cleared (l : List Event) (k : Nat) :
    tsAt (l.map clearedDur) k = tsAt l k := by
  simp only [tsAt, List.getElem?_map]
  cases l[k]? with
  | none => rfl
  | some e => rfl

/-- C3: after `compute_inference_duration`, the first event's duration is
`0` milliseconds when its timestamp is present, else null; for `i > 0`
event `i` carries `timestamp[i] - timestamp[i-1]` in whole milliseconds
(negative deltas passed through unchanged) when both timestamps are
present, else null — exactly the rule `specDurationAt` states over the
timestamp sequence. -/
theorem c3_duration_rule (events : List Event) (i : Nat) (h : i < events.length) :
    ((compute_inference_duration events)[i]?).map (fun e => e.duration_ms) =
      some (specDurationAt (events.map (fun e => e.ts)) i) := by
  cases events with
  | nil => simp at h
  | cons e0 rest =>
    rw [compute_inference_duration]
    simp only [List.map_cons, computeCore]
    cases i with
    | zero =>
      simp only [List.getElem?_cons_zero, Option.map_some', specDurationAt, if_pos rfl]
      simp only [firstStep_dms, clearedDur_ts]
      rcases h0 : e0.ts with _ | t0 <;> simp [h0]
    | succ j =>
      have hj2 : j < (rest.map clearedDur).length := by
        simpa using Nat.lt_of_succ_lt_succ h
      simp only [List.getElem?_cons_succ]
      rw [durLoop_dms _ _ j hj2]
      have hx : j < (e0 :: rest).length := Nat.lt_of_succ_lt h
      have e1 : (e0.ts :: rest.map (fun e => e.ts))[j]? = some (tsAt (e0 :: rest) j) := by
        rw [show e0.ts :: rest.map (fun e => e.ts) = (e0 :: rest).map (fun e => e.ts)
          from rfl]
        rw [List.getElem?_map, List.getElem?_eq_getElem hx, tsAt,
          List.getElem?_eq_getElem hx]
        rfl
      have e2 : (e0.ts :: rest.map (fun e => e.ts))[j + 1]? =
          some (tsAt (e0 :: rest) (j + 1)) := by
        rw [show e0.ts :: rest.map (fun e => e.ts) = (e0 :: rest).map (fun e => e.ts)
          from rfl]
        rw [List.getElem?_map, List.getElem?_eq_getElem h, tsAt,
          List.getElem?_eq_getElem h]
        rfl
      have hargs1 : (if j = 0 then (firstStep (clearedDur e0)).ts
          else tsAt (rest.map clearedDur) (j - 1)) = tsAt (e0 :: rest) j := by
        cases j with
        | zero => simp [firstStep_ts, clearedDur_ts, tsAt_cons_zero]
        | succ k => simp [tsAt_map_cleared, tsAt_cons_succ]
      have hargs2 : tsAt (rest.map clearedDur) j = tsAt (e0 :: rest) (j + 1) := by
        rw [tsAt_map_cleared, tsAt_cons_succ]
      rw [hargs1, hargs2]
      simp only [specDurationAt, Nat.succ_ne_zero, if_neg, Nat.add_sub_cancel,
        reduceIte, List.map_cons]
      rw [e1, e2]
      rcases tsAt (e0 :: rest) j with _ | ta <;>
        rcases tsAt (e0 :: rest) (j + 1) with _ | tb <;> rfl

theorem c3_duration_rule_witness :
    1 < ([({ ts := some 0, component := none, event := none, details := [],
             raw := [] } : Event),
          ({ ts := some 1500000, component := none, event := none, details := [],
             raw := [] } : Event)] : List Event).length ∧
    ((compute_inference_duration
        [({ ts := some 0, component := none, event := none, details := [],
            raw := [] } : Event),
         ({ ts := some 1500000, component := none, event := none, details := [],
            raw := [] } : Event)])[1]?).map (fun e => e.duration_ms) =
      some (specDurationAt
        (([({ ts := some 0, component := none, event := none, details := [],
              raw := [] } : Event),
           ({ ts := some 1500000, component := none, event := none, details := [],
              raw := [] } : Event)] : List Event).map (fun e => e.ts)) 1) :=
  ⟨by decide,
   c3_duration_rule
     [{ ts := some 0, component := none, event := none, details := [], raw := [] },
      { ts := some 1500000, component := none, event := none, details := [], raw := [] }]
     1 (by decide)⟩

theorem clearedDur_durStep (prev cur : Event) :
    clearedDur (durStep prev cur) = clearedDur cur := by
  cases cur with
  | mk cts ccomp cev cdet craw cdm cdh =>
    rcases hp : prev.ts with _ | tp <;> cases cts <;> simp [durStep, clearedDur, hp]

theorem clearedDur_firstStep (e0 : Event) :
    clearedDur (firstStep e0) = clearedDur e0 := by
  cases e0 with
  | mk ets ecomp eev edet eraw edm edh => cases ets <;> simp [firstStep, clearedDur]

theorem durLoop_map_cleared (prev : Event) (l : List Event) :
    (durLoop prev l).map clearedDur = l.map clearedDur := by
  induction l generalizing prev with
  | nil => rfl
  | cons cur rest ih =>
    simp only [durLoop, List.map_cons]
    rw [clearedDur_durStep, ih]

theorem computeCore_map_cleared (l : List Event) :
    (computeCore l).map clearedDur = l.map clearedDur := by
  cases l with
  | nil => rfl
  | cons e0 rest =>
    simp only [computeCore, List.map_cons]
    rw [clearedDur_firstStep, durLoop_map_cleared]

theorem map_cleared_idem (l : List Event) :
    (l.map clearedDur).map clearedDur = l.map clearedDur := by
  rw [List.map_map]
  exact List.map_congr_left (fun e _ => rfl)

/-- C9: `compute_inference_duration` is idempotent — running it twice
yields event records (including both duration fields) identical to running
it once. -/
theorem c9_compute_duration_idempotent (events : List Event) :
    compute_inference_duration (compute_inference_duration events) =
      compute_inference_duration events := by
  show computeCore ((computeCore (events.map clearedDur)).map clearedDur) =
    computeCore (events.map clearedDur)
  rw [computeCore_map_cleared, map_cleared_idem]

/-! ### Row synthesis lemmas (C4, C5, C8) -/

theorem mem_process_file_cases {lines : List Str} {esc : Nat} {modo : Str} {r : Row}
    (hr : r ∈ process_file lines esc modo) :
    r = fallbackRow (compute_inference_duration (parse_log_lines lines))
        (find_ground_truth lines) ("LED".toList) esc modo ∨
    ∃ ev ∈ compute_inference_duration (parse_log_lines lines),
      rowOfEvent (find_ground_truth lines) ("LED".toList) esc modo ev = some r := by
  simp only [process_file] at hr
  by_cases h : ((compute_inference_duration (parse_log_lines lines)).filterMap
      (rowOfEvent (find_ground_truth lines) ("LED".toList) esc modo)).isEmpty = true
  · rw [if_pos h] at hr
    exact Or.inl (List.mem_singleton.1 hr)
  · rw [if_neg h] at hr
    exact Or.inr (List.mem_filterMap.1 hr)

theorem rowOfEvent_some_inv {truth : Option Str} {ilum : Str} {esc : Nat} {modo : Str}
    {ev : Event} {r : Row} (h : rowOfEvent truth ilum esc modo ev = some r) :
    ∃ evName, ev.event = some evName ∧ evName.isEmpty = false ∧
      r.objeto_verdad = truthStr truth ∧
      r.objeto_predicho = labelOf ev.details ∧
      r.confianza = confStr ev.details ∧
      r.acierto = aciertoOf truth (labelOf ev.details) := by
  cases hev : ev.event with
  | none => simp [rowOfEvent, hev] at h
  | some evName =>
    by_cases hne : evName.isEmpty = true
    · simp [rowOfEvent, hev, hne] at h
    · simp only [rowOfEvent, hev] at h
      rw [if_neg hne] at h
      cases h
      simp only [Bool.not_eq_true] at hne
      exact ⟨evName, rfl, hne, rfl, rfl, rfl, rfl⟩

theorem aciertoOf_eq_one_iff (truth : Option Str) (label : Str) :
    aciertoOf truth label = some 1 ↔
      (truthStr truth ≠ [] ∧ label ≠ [] ∧ lowerStr (truthStr truth) = lowerStr label) := by
  cases truth with
  | none => simp [aciertoOf, truthStr]
  | some t =>
    by_cases ht : t.isEmpty = true
    · have ht' : t = [] := List.isEmpty_iff.1 ht
      simp [aciertoOf, truthStr, ht, ht']
    · have ht' : t ≠ [] := fun hnil => ht (by simp [hnil])
      by_cases hl : label.isEmpty = true
      · have hl' : label = [] := List.isEmpty_iff.1 hl
        simp [aciertoOf, truthStr, ht, hl, hl']
      · have hl' : label ≠ [] := fun hnil => hl (by simp [hnil])
        by_cases heq : lowerStr t = lowerStr label
        · simp [aciertoOf, truthStr, ht, hl, heq, ht', hl']
        · simp [aciertoOf, truthStr, ht, hl, heq]

/-- C4: in every synthesized row, `acierto = 1` exactly when the
ground-truth and predicted labels are both non-empty and equal
case-insensitively, and whenever the file-level ground truth is absent the
field is the empty marker (`none`, rendered `""`), never `0`. -/
theorem c4_correct_scoring (lines : List Str) (esc : Nat) (modo : Str) (r : Row)
    (hr : r ∈ process_file lines esc modo) :
    (r.acierto = some 1 ↔
      (r.objeto_verdad ≠ [] ∧ r.objeto_predicho ≠ [] ∧
        lowerStr r.objeto_verdad = lowerStr r.objeto_predicho)) ∧
    (find_ground_truth lines = none → r.acierto = none) := by
  rcases mem_process_file_cases hr with hfb | ⟨ev, _, hre⟩
  · subst hfb
    simp [fallbackRow]
  · obtain ⟨evName, _, _, hverdad, hpred, _, hac⟩ := rowOfEvent_some_inv hre
    constructor
    · rw [hac, hverdad, hpred]
      exact aciertoOf_eq_one_iff _ _
    · intro hnone
      rw [hac, hnone]
      rfl

theorem c4_correct_scoring_witness :
    process_file c4lines 1 ("MOBILE".toList) = [c4row] ∧
    ((c4row.acierto = some 1 ↔
       (c4row.objeto_verdad ≠ [] ∧ c4row.objeto_predicho ≠ [] ∧
         lowerStr c4row.objeto_verdad = lowerStr c4row.objeto_predicho)) ∧
     (find_ground_truth c4lines = none → c4row.acierto = none)) := by
  have hm : process_file c4lines 1 ("MOBILE".toList) = [c4row] := by decide
  exact ⟨hm, c4_correct_scoring c4lines 1 ("MOBILE".toList) c4row
    (by rw [hm]; exact List.mem_singleton.2 rfl)⟩

/-- C8 (amended): every emitted confidence is either empty or the captured
float rendered with exactly three decimals — a non-empty digit string, a
dot, and three digit characters.  (No 0–1 range is enforced; see the
counterexample.) -/
theorem c8_confidence_three_decimals (lines : List Str) (esc : Nat) (modo : Str)
    (r : Row) (hr : r ∈ process_file lines esc modo) :
    r.confianza = [] ∨
    ∃ ip f1 f2 f3, r.confianza = ip ++ '.' :: [f1, f2, f3] ∧ ip ≠ [] ∧
      (∀ c ∈ ip, c.isDigit = true) ∧ f1.isDigit = true ∧ f2.isDigit = true ∧
      f3.isDigit = true := by
  rcases mem_process_file_cases hr with hfb | ⟨ev, _, hre⟩
  · subst hfb
    left
    rfl
  · obtain ⟨_, _, _, _, _, hconf, _⟩ := rowOfEvent_some_inv hre
    rw [hconf]
    rcases hcs : confSearch ev.details with _ | cap
    · left
      simp [confStr, hcs]
    · right
      simp only [confStr, hcs]
      refine ⟨natToDigits
          (roundHalfEvenDiv ((capVal cap).1 * 1000) (capVal cap).2 / 1000),
        digitChar (roundHalfEvenDiv ((capVal cap).1 * 1000) (capVal cap).2 / 100 % 10),
        digitChar (roundHalfEvenDiv ((capVal cap).1 * 1000) (capVal cap).2 / 10 % 10),
        digitChar (roundHalfEvenDiv ((capVal cap).1 * 1000) (capVal cap).2 % 10),
        rfl, natToDigits_ne_nil _, natToDigits_all_digit _,
        digitChar_isDigit (Nat.mod_lt _ (by omega)),
        digitChar_isDigit (Nat.mod_lt _ (by omega)),
        digitChar_isDigit (Nat.mod_lt _ (by omega))⟩

theorem c8_confidence_three_decimals_witness :
    (c8row ∈ process_file c8lines 1 ("MOBILE".toList)) ∧
    (c8row.confianza = [] ∨
      ∃ ip f1 f2 f3, c8row.confianza = ip ++ '.' :: [f1, f2, f3] ∧ ip ≠ [] ∧
        (∀ c ∈ ip, c.isDigit = true) ∧ f1.isDigit = true ∧ f2.isDigit = true ∧
        f3.isDigit = true) := by
  have hm : process_file c8lines 1 ("MOBILE".toList) = [c8row] := by decide
  refine ⟨by rw [hm]; exact List.mem_singleton.2 rfl, ?_⟩
  exact c8_confidence_three_decimals c8lines 1 ("MOBILE".toList) c8row
    (by rw [hm]; exact List.mem_singleton.2 rfl)

/-- C8 counterexample to the range part of the claim as stated: the line
`... result - cat with confidence 2.5` yields a row whose confidence field
is `2.500`, a value outside `0.000–1.000` (its exact decimal value
`2500/1000` exceeds `1`). -/
theorem c8_counterexample :
    process_file c8lines 1 ("MOBILE".toList) = [c8row] ∧
    c8row.confianza = "2.500".toList ∧
    (capVal c8row.confianza).1 > (capVal c8row.confianza).2 :=
  ⟨by decide, by decide, by decide⟩

/-! ### The no-result fallback (C5) -/

theorem durStep_event (prev cur : Event) : (durStep prev cur).event = cur.event := by
  cases cur with
  | mk cts ccomp cev cdet craw cdm cdh =>
    rcases hp : prev.ts with _ | tp <;> cases cts <;> simp [durStep, hp]

theorem firstStep_event (e0 : Event) : (firstStep e0).event = e0.event := by
  cases e0 with
  | mk ets ecomp eev edet eraw edm edh => cases ets <;> simp [firstStep]

theorem durLoop_map_event (prev : Event) (l : List Event) :
    (durLoop prev l).map (fun e => e.event) = l.map (fun e => e.event) := by
  induction l generalizing prev with
  | nil => rfl
  | cons cur rest ih =>
    simp only [durLoop, List.map_cons]
    rw [durStep_event, ih]

theorem compute_map_event (l : List Event) :
    (compute_inference_duration l).map (fun e => e.event) = l.map (fun e => e.event) := by
  rw [compute_inference_duration]
  cases hl : l.map clearedDur with
  | nil =>
    have : l = [] := by
      cases l
      · rfl
      · cases hl
    rw [this]
    rfl
  | cons e0 rest =>
    simp only [computeCore, List.map_cons]
    rw [firstStep_event, durLoop_map_event]
    have := congrArg (List.map (fun e => e.event)) hl
    simp only [List.map_map] at this
    have h2 : (l.map ((fun e => e.event) ∘ clearedDur)) = l.map (fun e => e.event) :=
      List.map_congr_left (fun e _ => rfl)
    rw [h2] at this
    rw [this]
    rfl

theorem durLoop_map_ts (prev : Event) (l : List Event) :
    (durLoop prev l).map (fun e => e.ts) = l.map (fun e => e.ts) := by
  induction l generalizing prev with
  | nil => rfl
  | cons cur rest ih =>
    simp only [durLoop, List.map_cons]
    rw [durStep_ts, ih]

theorem compute_map_ts (l : List Event) :
    (compute_inference_duration l).map (fun e => e.ts) = l.map (fun e => e.ts) := by
  rw [compute_inference_duration]
  cases hl : l.map clearedDur with
  | nil =>
    have : l = [] := by
      cases l
      · rfl
      · cases hl
    rw [this]
    rfl
  | cons e0 rest =>
    simp only [computeCore, List.map_cons]
    rw [firstStep_ts, durLoop_map_ts]
    have := congrArg (List.map (fun e => e.ts)) hl
    simp only [List.map_map] at this
    have h2 : (l.map ((fun e => e.ts) ∘ clearedDur)) = l.map (fun e => e.ts) :=
      List.map_congr_left (fun e _ => rfl)
    rw [h2] at this
    rw [this]
    rfl

theorem findSome?_congr {α β : Type} (f : α → Option β) :
    ∀ (l1 l2 : List α), l1.map f = l2.map f → l1.findSome? f = l2.findSome? f
  | [], [], _ => rfl
  | [], _ :: _, h => by simp at h
  | _ :: _, [], h => by simp at h
  | a :: l1, b :: l2, h => by
    simp only [List.map_cons, List.cons.injEq] at h
    rw [List.findSome?_cons, List.findSome?_cons, h.1]
    cases f b with
    | none => exact findSome?_congr f l1 l2 h.2
    | some v => rfl

/-- C5: a file whose per-event loop yields no rows (no event carries a
truthy name) produces exactly one summary row: `no_result`, the last
available timestamp (scanning backward), the last truthy duration string
(scanning the annotated sequence backward), the note
`no result lines found`, and empty prediction fields. -/
theorem c5_no_result_fallback (lines : List Str) (esc : Nat) (modo : Str)
    (H : ∀ ev ∈ parse_log_lines lines, ev.event = none ∨ ev.event = some []) :
    process_file lines esc modo =
      [{ timestamp := (parse_log_lines lines).reverse.findSome? (fun ev => ev.ts)
         modo := modo
         tipo_evento := "no_result".toList
         escenario := esc
         distancia_m := []
         iluminacion := "LED".toList
         objeto_verdad := truthStr (find_ground_truth lines)
         objeto_predicho := []
         confianza := []
         t_total_ms :=
           match (compute_inference_duration (parse_log_lines lines)).reverse.findSome?
               (fun ev => match ev.duration_hms with
                          | some s => if s.isEmpty then none else some s
                          | none => none) with
           | some s => s
           | none => []
         acierto := none
         notas := "no result lines found".toList }] := by
  have hrows : (compute_inference_duration (parse_log_lines lines)).filterMap
      (rowOfEvent (find_ground_truth lines) ("LED".toList) esc modo) = [] := by
    rw [List.filterMap_eq_nil_iff]
    intro ev hev
    have hevm : ev.event ∈ (compute_inference_duration (parse_log_lines lines)).map
        (fun e => e.event) := List.mem_map_of_mem _ hev
    rw [compute_map_event] at hevm
    obtain ⟨ev0, hev0, heq⟩ := List.mem_map.1 hevm
    rcases H ev0 hev0 with h | h
    · have : ev.event = none := by rw [← heq, h]
      simp [rowOfEvent, this]
    · have : ev.event = some [] := by rw [← heq, h]
      simp [rowOfEvent, this]
  simp only [process_file]
  rw [hrows]
  simp only [List.isEmpty_nil, if_true]
  have hts : (compute_inference_duration (parse_log_lines lines)).reverse.findSome?
      (fun ev => ev.ts) = (parse_log_lines lines).reverse.findSome? (fun ev => ev.ts) := by
    refine findSome?_congr _ _ _ ?_
    rw [List.map_reverse, List.map_reverse, compute_map_ts]
  rw [fallbackRow, hts]

theorem c5_no_result_fallback_witness :
    (∀ ev ∈ parse_log_lines c5lines, ev.event = none ∨ ev.event = some []) ∧
    process_file c5lines 1 ("MOBILE".toList) =
      [{ timestamp := (parse_log_lines c5lines).reverse.findSome? (fun ev => ev.ts)
         modo := "MOBILE".toList
         tipo_evento := "no_result".toList
         escenario := 1
         distancia_m := []
         iluminacion := "LED".toList
         objeto_verdad := truthStr (find_ground_truth c5lines)
         objeto_predicho := []
         confianza := []
         t_total_ms :=
           match (compute_inference_duration (parse_log_lines c5lines)).reverse.findSome?
               (fun ev => match ev.duration_hms with
                          | some s => if s.isEmpty then none else some s
                          | none => none) with
           | some s => s
           | none => []
         acierto := none
         notas := "no result lines found".toList }] :=
  ⟨by decide, c5_no_result_fallback c5lines 1 ("MOBILE".toList) (by decide)⟩

/-! ### The directory walk of `main` (C1) -/

/-- C1 (code behavior at the failing input): `escenario 1` holds the two
`MOBILE`-prefixed regular files `c1fileA` (prediction `cat`) and `c1fileB`
(prediction `dog`), yet the accumulation phase of `main` emits only the
single row of the alphabetically last entry `c1fileB` — `c1fileA` is never
processed, because the `try` block that calls `process_file` sits at the
level of the `for f` loop (whose name-prefix and regular-file filters are
dead code), not inside it. -/
theorem c1_only_last_directory_entry_processed :
    mainAccum c1root = [⟨1, c1rowB⟩] ∧
    (∀ r ∈ mainAccum c1root, r.row.objeto_predicho ≠ "cat".toList) := by
  constructor
  · decide
  · decide

/-! ### The global sort and re-identification (C6) -/

theorem tsKeyLe_trans (a b c : Option Int) (h1 : tsKeyLe a b = true)
    (h2 : tsKeyLe b c = true) : tsKeyLe a c = true := by
  rcases a with _ | x <;> rcases b with _ | y <;> rcases c with _ | z <;>
    simp_all [tsKeyLe] <;> omega

theorem tsKeyLe_total (a b : Option Int) : (tsKeyLe a b || tsKeyLe b a) = true := by
  rcases a with _ | x <;> rcases b with _ | y <;> simp [tsKeyLe] <;> omega

theorem tsKeyLe_refl (a : Option Int) : tsKeyLe a a = true := by
  rcases a with _ | x <;> simp [tsKeyLe]

theorem reassign_map_row (n : Nat) (l : List IdRow) :
    (reassignIds n l).map (fun r => r.row) = l.map (fun r => r.row) := by
  induction l generalizing n with
  | nil => rfl
  | cons r rs ih =>
    simp only [reassignIds, List.map_cons, ih]

theorem reassign_map_ids (n : Nat) (l : List IdRow) :
    (reassignIds n l).map (fun r => r.id_prueba) = List.range' n l.length := by
  induction l generalizing n with
  | nil => rfl
  | cons r rs ih =>
    simp only [reassignIds, List.map_cons, ih, List.length_cons, List.range']

/-- C6: the sort-and-reindex phase of `main` reorders the accumulated rows
into a permutation that is ascending in parsed timestamp with missing
timestamps last, is stable (any two rows in original order with equal
timestamps stay in that order), and then carries ids `1..N` in the new
order. -/
theorem c6_stable_sort_and_reindex (rows : List IdRow) :
    ((reassignIds 1 (pdSortRows rows)).map (fun r => r.row)).Perm
      (rows.map (fun r => r.row)) ∧
    List.Pairwise (fun a b => tsKeyLe a.timestamp b.timestamp = true)
      ((reassignIds 1 (pdSortRows rows)).map (fun r => r.row)) ∧
    (∀ a b : IdRow, [a, b].Sublist rows → a.row.timestamp = b.row.timestamp →
      [a.row, b.row].Sublist ((reassignIds 1 (pdSortRows rows)).map (fun r => r.row))) ∧
    (reassignIds 1 (pdSortRows rows)).map (fun r => r.id_prueba) =
      List.range' 1 rows.length := by
  have htrans : ∀ (a b c : IdRow),
      tsKeyLe a.row.timestamp b.row.timestamp = true →
      tsKeyLe b.row.timestamp c.row.timestamp = true →
      tsKeyLe a.row.timestamp c.row.timestamp = true :=
    fun a b c h1 h2 => tsKeyLe_trans _ _ _ h1 h2
  have htotal : ∀ (a b : IdRow),
      (tsKeyLe a.row.timestamp b.row.timestamp ||
        tsKeyLe b.row.timestamp a.row.timestamp) = true :=
    fun a b => tsKeyLe_total _ _
  refine ⟨?_, ?_, ?_, ?_⟩
  · rw [pdSortRows, reassign_map_row]
    exact (List.mergeSort_perm rows _).map _
  · rw [pdSortRows, reassign_map_row, List.pairwise_map]
    exact List.sorted_mergeSort htrans htotal rows
  · intro a b hab heq
    have hpw : List.Pairwise
        (fun x y => tsKeyLe x.row.timestamp y.row.timestamp = true) [a, b] := by
      refine List.pairwise_cons.2 ⟨?_, List.pairwise_singleton _ _⟩
      intro y hy
      rw [List.mem_singleton] at hy
      subst hy
      rw [heq]
      exact tsKeyLe_refl _
    have hsub := List.sublist_mergeSort htrans htotal hpw hab
    rw [pdSortRows, reassign_map_row]
    exact hsub.map _
  · rw [pdSortRows, reassign_map_ids, List.length_mergeSort]

theorem c6_stable_sort_and_reindex_witness :
    ([⟨1, c4row⟩, ⟨2, c4row⟩] : List IdRow).Sublist [⟨1, c4row⟩, ⟨2, c4row⟩] ∧
    (⟨1, c4row⟩ : IdRow).row.timestamp = (⟨2, c4row⟩ : IdRow).row.timestamp ∧
    [(⟨1, c4row⟩ : IdRow).row, (⟨2, c4row⟩ : IdRow).row].Sublist
      ((reassignIds 1 (pdSortRows [⟨1, c4row⟩, ⟨2, c4row⟩])).map (fun r => r.row)) ∧
    (reassignIds 1 (pdSortRows [⟨1, c4row⟩, ⟨2, c4row⟩])).map (fun r => r.id_prueba) =
      List.range' 1 ([⟨1, c4row⟩, ⟨2, c4row⟩] : List IdRow).length :=
  ⟨List.Sublist.refl _, rfl,
   (c6_stable_sort_and_reindex [⟨1, c4row⟩, ⟨2, c4row⟩]).2.2.1 ⟨1, c4row⟩ ⟨2, c4row⟩
     (List.Sublist.refl _) rfl,
   (c6_stable_sort_and_reindex [⟨1, c4row⟩, ⟨2, c4row⟩]).2.2.2⟩

end ThesisAnalysis
